import Mathlib

/-!
# Go learning examples: a shallow embedding

The repository is a set of stand-alone Go programs (`examples/01-basics/...` and
`cmd/demo`).  Each program writes text to standard output through `fmt`.  Here the
standard output of a program is a list of chunks, one chunk per `fmt` call, and
each section of a `main` function is a function that appends its chunks.

Conventions of the embedding

* Go `int` is `Int`; where an operation can overflow it is followed by `wrapInt64`.
* A Go slice is the list of its elements (`len` is the list length).  `append`
  yields the elements of its first argument followed by the appended values.
* A Go map is an association list with pairwise distinct keys.  The order in
  which `range` visits the keys is not fixed by the language: it is an argument
  of every function that contains such a loop.
* `error` is `Option String` (`nil` is `none`, `errors.New t` is `some t`).
-/

namespace GoModel

/-! ## Machine integers -/

/-- Two's complement wrap-around of a mathematical integer to the `int` (64 bit) range. -/
def wrapInt64 (x : Int) : Int := (x + 2 ^ 63) % 2 ^ 64 - 2 ^ 63

/-! ## fmt -/

/-- Verb `%d` applied to an integer. -/
def fmtD (n : Int) : String := toString n

/-- Verb `%v` applied to a `[]string`. -/
def fmtVStrings (xs : List String) : String := "[" ++ " ".intercalate xs ++ "]"

/-- Verb `%v` applied to a `[]int`. -/
def fmtVInts (xs : List Int) : String := "[" ++ " ".intercalate (xs.map fmtD) ++ "]"

/-- Verb `%c` applied to a rune. -/
def fmtC (c : Char) : String := String.singleton c

/-- Concatenation of all chunks written so far: the bytes on standard output. -/
def render (chunks : List String) : String := String.join chunks

/-! ## Slices -/

/-- Builtin `append(s, xs...)`: the elements of `s` followed by `xs`. -/
def goAppend {α : Type} (s xs : List α) : List α := s ++ xs

/-- Slice expression `s[lo:hi]`. -/
def sliceRange {α : Type} (s : List α) (lo hi : Nat) : List α := (s.take hi).drop lo

/-- Builtin `make([]T, n)`: `n` zero values. -/
def goMake {α : Type} (n : Nat) (zero : α) : List α := List.replicate n zero

/-- Builtin `copy(dst, src)`: the new contents of `dst`; as many elements are
copied as the shorter of the two slices holds. -/
def goCopy {α : Type} (dst src : List α) : List α :=
  src.take dst.length ++ dst.drop src.length

/-! ## Maps -/

/-- A Go map: association list, keys pairwise distinct. -/
abbrev GoMap (κ ν : Type) := List (κ × ν)

/-- Keys of a map (in storage order, which no program can observe). -/
def GoMap.keys {κ ν : Type} (m : GoMap κ ν) : List κ := m.map Prod.fst

/-- Comma-ok lookup `v, ok := m[k]`. -/
def GoMap.get {κ ν : Type} [DecidableEq κ] (m : GoMap κ ν) (k : κ) : Option ν :=
  match m with
  | [] => none
  | (k', v) :: rest => if k' = k then some v else GoMap.get rest k

/-- Index expression `m[k]`: the zero value when the key is absent. -/
def GoMap.getD {κ ν : Type} [DecidableEq κ] (m : GoMap κ ν) (k : κ) (zero : ν) : ν :=
  match GoMap.get m k with
  | some v => v
  | none => zero

/-- Assignment `m[k] = v`. -/
def GoMap.set {κ ν : Type} [DecidableEq κ] (m : GoMap κ ν) (k : κ) (v : ν) : GoMap κ ν :=
  match m with
  | [] => [(k, v)]
  | (k', v') :: rest => if k' = k then (k, v) :: rest else (k', v') :: GoMap.set rest k v

/-- Builtin `delete(m, k)`. -/
def GoMap.delete {κ ν : Type} [DecidableEq κ] (m : GoMap κ ν) (k : κ) : GoMap κ ν :=
  m.filter (fun p => decide (p.1 ≠ k))

/-- An iteration order that `range m` may take in one run: every key exactly once. -/
abbrev IterOrder {κ ν : Type} (m : GoMap κ ν) (order : List κ) : Prop := order.Perm m.keys

/-- Statement `for k, v := range m { body }` run with the given iteration order. -/
def rangeMap {κ ν σ : Type} [DecidableEq κ] (m : GoMap κ ν) (order : List κ)
    (body : κ → ν → σ → σ) (init : σ) : σ :=
  order.foldl (fun s k => match GoMap.get m k with
    | some v => body k v s
    | none => s) init

/-! ## Loops -/

/-- How the execution of a loop body ends: it falls through (or runs `continue`),
runs a plain `break`, or runs a `break` with the label of an enclosing loop. -/
inductive Flow where
  | next
  | breakLoop
  | breakLabel
  deriving DecidableEq, Repr

/-- Statement `for ; cond; post { body }` on a state `σ`.  The result is the final
state and whether a labelled break is still propagating; `none` when `fuel`
iterations were not enough. -/
def forLoop {σ : Type} (fuel : Nat) (cond : σ → Bool) (post : σ → σ)
    (body : σ → Option (σ × Flow)) (s : σ) : Option (σ × Flow) :=
  match fuel with
  | 0 => none
  | fuel + 1 =>
    if cond s then
      match body s with
      | none => none
      | some (s', Flow.next) => forLoop fuel cond post body (post s')
      | some (s', Flow.breakLoop) => some (s', Flow.next)
      | some (s', Flow.breakLabel) => some (s', Flow.breakLabel)
    else some (s, Flow.next)

end GoModel

/-! # examples/01-basics/control-flow -/

namespace ControlFlow
open GoModel

/-- Dynamic value held by the `interface{}` variable of the type switch. -/
inductive Iface where
  | str (s : String)
  | int (n : Int)
  | bool (b : Bool)
  | other (typeName : String)

/-- Lines 29-52: if / else. -/
def ifElseSection : List String :=
  let age : Int := 25
  let out : List String := []
  let out := if age ≥ 18 then out ++ ["You are an adult\n"] else out
  let out :=
    if age < 13 then out ++ ["You are a child\n"]
    else if age < 18 then out ++ ["You are a teenager\n"]
    else out ++ ["You are an adult\n"]
  let score : Int := 85
  if score ≥ 90 then out ++ ["Grade: A\n"]
  else if score ≥ 80 then out ++ ["Grade: B\n"]
  else out ++ ["Grade: C\n"]

/-- Lines 59-109: switch statements. -/
def switchSection : List String :=
  let day := "Monday"
  let out : List String := []
  let out :=
    if day = "Monday" then out ++ ["Start of the work week\n"]
    else if day = "Tuesday" ∨ day = "Wednesday" ∨ day = "Thursday" then
      out ++ ["Middle of the week\n"]
    else if day = "Friday" then out ++ ["TGIF!\n"]
    else if day = "Saturday" ∨ day = "Sunday" then out ++ ["Weekend!\n"]
    else out ++ ["Invalid day\n"]
  let temperature : Int := 25
  let out :=
    if temperature < 0 then out ++ ["Freezing\n"]
    else if temperature < 15 then out ++ ["Cold\n"]
    else if temperature < 25 then out ++ ["Mild\n"]
    else out ++ ["Warm\n"]
  let hour : Int := 14
  let out :=
    if hour < 12 then out ++ ["Good morning!\n"]
    else if hour < 17 then out ++ ["Good afternoon!\n"]
    else out ++ ["Good evening!\n"]
  let value := Iface.str "Hello"
  match value with
  | Iface.str v => out ++ ["String: " ++ v ++ "\n"]
  | Iface.int v => out ++ ["Integer: " ++ fmtD v ++ "\n"]
  | Iface.bool v => out ++ ["Boolean: " ++ toString v ++ "\n"]
  | Iface.other t => out ++ ["Unknown type: " ++ t ++ "\n"]

/-- State of a counting loop: the loop variable and the chunks the loop has written. -/
structure Counting where
  i : Int
  out : List String
  deriving DecidableEq, Repr

/-- Statement `fmt.Print(i, " ")`. -/
def printSpaced (c : Counting) : Counting := { c with out := c.out ++ [fmtD c.i ++ " "] }

/-- Statement `i++`. -/
def Counting.incr (c : Counting) : Counting := { c with i := wrapInt64 (c.i + 1) }

/-- Loop `for index, char := range s`: byte offset and rune of every character. -/
def rangeString (s : String) : List (Nat × Char) :=
  (s.toList.foldl (fun (acc : List (Nat × Char) × Nat) ch =>
    (acc.1 ++ [(acc.2, ch)], acc.2 + ch.utf8Size)) ([], 0)).1

/-- Lines 117-177: the for loops before the map loop. -/
def forLoopsSection : Option (List String) := do
  let out := ["\n--- For Loops ---\n", "Traditional: "]
  let r ← forLoop 6 (fun c => decide (c.i < 5)) Counting.incr
    (fun c => some (printSpaced c, Flow.next)) { i := 0, out := out }
  let out := r.1.out ++ ["\n", "While-style: "]
  let r ← forLoop 6 (fun c => decide (c.i < 5)) id
    (fun c => some ((printSpaced c).incr, Flow.next)) { i := 0, out := out }
  let out := r.1.out ++ ["\n", "Infinite with break: "]
  let r ← forLoop 6 (fun _ => true) id
    (fun c => if c.i ≥ 5 then some (c, Flow.breakLoop) else some ((printSpaced c).incr, Flow.next))
    { i := 0, out := out }
  let out := r.1.out ++ ["\n", "Range over slice: "]
  let numbers : List Int := [10, 20, 30, 40, 50]
  let out := numbers.enum.foldl
    (fun out p => out ++ ["[" ++ fmtD p.1 ++ ":" ++ fmtD p.2 ++ "] "]) out
  let out := out ++ ["\n", "Range index only: "]
  let out := (List.range numbers.length).foldl (fun out i => out ++ [fmtD i ++ " "]) out
  let out := out ++ ["\n", "Range value only: "]
  let out := numbers.foldl (fun out num => out ++ [fmtD num ++ " "]) out
  let out := out ++ ["\n", "Range over string: "]
  let out := (rangeString "Go!").foldl
    (fun out p => out ++ ["[" ++ fmtD p.1 ++ ":" ++ fmtC p.2 ++ "] "]) out
  some (out ++ ["\n", "Range over map:\n"])

/-- The map literal of lines 178-182. -/
def person : GoMap String String :=
  [("name", "Alice"), ("city", "NYC"), ("role", "Engineer")]

/-- Lines 183-185: `for key, value := range person`; the chunks it writes when
the loop takes the order `order`. -/
def rangePerson (order : List String) : List String :=
  rangeMap person order (fun key value out => out ++ ["  " ++ key ++ ": " ++ value ++ "\n"]) []

/-- State of the nested loops of lines 216-223. -/
structure Nested where
  i : Int
  j : Int
  out : List String
  deriving DecidableEq, Repr

/-- Lines 217-222: the inner loop, run for the current `i`. -/
def innerLoop (s : Nested) : Option (Nested × Flow) :=
  forLoop 4 (fun s => decide (s.j < 3)) (fun s => { s with j := wrapInt64 (s.j + 1) })
    (fun s =>
      if s.i = 1 ∧ s.j = 1 then some (s, Flow.breakLabel)
      else some ({ s with out := s.out ++ ["  i=" ++ fmtD s.i ++ ", j=" ++ fmtD s.j ++ "\n"] },
        Flow.next))
    { s with j := 0 }

/-- Lines 216-223: the outer loop: the state in which it stops and how it stops. -/
def outerLoop : Option (Nested × Flow) :=
  forLoop 4 (fun s => decide (s.i < 3)) (fun s => { s with i := wrapInt64 (s.i + 1) })
    innerLoop { i := 0, j := 0, out := [] }

/-- Lines 215-223: the statement labelled `OuterLoop`; the chunks it writes. -/
def labeledBreak : Option (List String) :=
  outerLoop.map (fun r => r.1.out)

/-- Lines 191-223: break, continue and the labelled break. -/
def breakContinueSection : Option (List String) := do
  let out := ["\n--- Break and Continue ---\n", "Break example: "]
  let r ← forLoop 11 (fun c => decide (c.i < 10)) Counting.incr
    (fun c => if c.i = 5 then some (c, Flow.breakLoop) else some (printSpaced c, Flow.next))
    { i := 0, out := out }
  let out := r.1.out ++ ["\n", "Continue example (skip evens): "]
  let r ← forLoop 11 (fun c => decide (c.i < 10)) Counting.incr
    (fun c => if c.i.tmod 2 = 0 then some (c, Flow.next) else some (printSpaced c, Flow.next))
    { i := 0, out := out }
  let out := r.1.out ++ ["\n", "Labeled break:\n"]
  let pairs ← labeledBreak
  some (out ++ pairs)

/-- Lines 227-233: the statements from the label `loop` to the `goto`; `fuel`
bounds the number of passes. -/
def gotoLoop (fuel : Nat) (c : Counting) : Option Counting :=
  match fuel with
  | 0 => none
  | fuel + 1 =>
    let c := (printSpaced c).incr
    if c.i < 5 then gotoLoop fuel c else some c

/-- Lines 226-234: goto. -/
def gotoSection : Option (List String) := do
  let c ← gotoLoop 5 { i := 0, out := ["Goto example: "] }
  some (c.out ++ ["\n"])

/-- Chunks written by a function so far, and its stack of deferred `fmt` calls
(most recent first; the arguments of a deferred call are evaluated when the
`defer` statement runs, so the stack holds the finished text). -/
structure Env where
  out : List String
  deferred : List String
  deriving DecidableEq, Repr

/-- One `fmt.Print*` call writing `s`. -/
def Env.print (e : Env) (s : String) : Env := { e with out := e.out ++ [s] }

/-- One `defer fmt.Print*` statement whose call would write `s`. -/
def Env.defer (e : Env) (s : String) : Env := { e with deferred := s :: e.deferred }

/-- Function return: the deferred calls run, last deferred first. -/
def Env.runDeferred (e : Env) : List String := e.out ++ e.deferred

/-- Lines 261-268: `demonstrateDefer`. -/
def demonstrateDefer : List String :=
  let e : Env := { out := [], deferred := [] }
  let e := e.print "\nPractical defer example:\n"
  let e := e.defer "  4. Cleanup completed\n"
  let e := e.defer "  3. Closing connections\n"
  let e := e.print "  1. Opening resources\n"
  let e := e.print "  2. Processing data\n"
  e.runDeferred

/-- State of the loop of lines 250-252. -/
structure DeferLoop where
  i : Int
  env : Env
  deriving DecidableEq, Repr

/-- Lines 242-258: the defer statements of `main` and the statements after them:
the chunks they write and the deferred calls of `main`, which are still pending
when line 258 has run. -/
def deferSection : Option Env := do
  let e : Env := { out := [], deferred := [] }
  let e := e.print "\n--- Defer Statement ---\n"
  let e := e.defer "This prints last (deferred)\n"
  let e := e.print "This prints first\n"
  let e := e.print "This prints second\n"
  let e := e.print "\nMultiple defers (LIFO):\n"
  let r ← forLoop 4 (fun (c : DeferLoop) => decide (c.i ≤ 3))
    (fun c => { c with i := wrapInt64 (c.i + 1) })
    (fun c => some ({ c with env := c.env.defer ("  Deferred " ++ fmtD c.i ++ "\n") }, Flow.next))
    { i := 1, env := e }
  let e := r.1.env.print "  Regular statement\n"
  let e := { e with out := e.out ++ demonstrateDefer }
  some (e.print "\nâœ… Control Flow completed!\n")

/-- Function `main`: the chunks written to standard output in a run whose
`range person` loop takes the order `personOrder`. -/
def main (personOrder : List String) : Option (List String) := do
  let s1 := ["=== Control Flow in Go ===\n\n"] ++ ifElseSection ++ switchSection
  let s2 ← forLoopsSection
  let s3 := rangePerson personOrder
  let s4 ← breakContinueSection
  let s5 ← gotoSection
  let e ← deferSection
  some (s1 ++ s2 ++ s3 ++ s4 ++ s5 ++ e.runDeferred)

end ControlFlow

/-! # examples/01-basics/collections -/

namespace Collections
open GoModel

/-- Lines 66-103: slices and slice operations.  The result is the chunks written
and the final value of `colors`. -/
def sliceOperations : List String × List String :=
  let colors := ["red", "green", "blue"]
  let out := ["Colors: " ++ fmtVStrings colors ++ "\n"]
  let subColors := sliceRange colors 1 3
  let out := out ++ ["Sub-slice [1:3]: " ++ fmtVStrings subColors ++ "\n"]
  let out := out ++ ["colors[:2]: " ++ fmtVStrings (sliceRange colors 0 2) ++ "\n"]
  let out := out ++ ["colors[1:]: " ++ fmtVStrings (sliceRange colors 1 colors.length) ++ "\n"]
  let out := out ++ ["colors[:]: " ++ fmtVStrings (sliceRange colors 0 colors.length) ++ "\n"]
  let colors := goAppend colors ["yellow"]
  let out := out ++ ["\nAfter append: " ++ fmtVStrings colors ++ "\n"]
  let colors := goAppend colors ["purple", "orange"]
  let out := out ++ ["After multiple append: " ++ fmtVStrings colors ++ "\n"]
  let moreColors := ["black", "white"]
  let colors := goAppend colors moreColors
  let out := out ++ ["After appending slice: " ++ fmtVStrings colors ++ "\n"]
  let colorsCopy := goCopy (goMake colors.length "") colors
  let out := out ++ ["Copied slice: " ++ fmtVStrings colorsCopy ++ "\n"]
  let indexToRemove : Nat := 2
  let colors := goAppend (sliceRange colors 0 indexToRemove)
    (sliceRange colors (indexToRemove + 1) colors.length)
  let out := out ++
    ["After removing index " ++ fmtD indexToRemove ++ ": " ++ fmtVStrings colors ++ "\n"]
  (out, colors)

/-- Lines 151-176: the map `capitals` when the iteration of line 192 starts: the
literal, then `capitals["Japan"] = "Tokyo"`, then `delete(capitals, "UK")`. -/
def capitals : GoMap String String :=
  let capitals : GoMap String String :=
    [("USA", "Washington DC"), ("UK", "London"), ("France", "Paris"), ("Germany", "Berlin")]
  let capitals := capitals.set "Japan" "Tokyo"
  capitals.delete "UK"

/-- Chunk written by line 193 for one entry. -/
def capitalLine (country capital : String) : String :=
  "  " ++ country ++ " -> " ++ capital ++ "\n"

/-- Lines 191-194: `for country, capital := range capitals`, the loop taking the
order `order`. -/
def rangeCapitals (order : List String) : List String :=
  ["Iterating over map:\n"] ++
    rangeMap capitals order (fun country capital out => out ++ [capitalLine country capital]) []

/-- Line 205: `frequency[word]++`. -/
def incrWord (frequency : GoMap String Int) (word : String) : GoMap String Int :=
  frequency.set word (wrapInt64 (frequency.getD word 0 + 1))

/-- Lines 202-206: the map `frequency` after the loop over `words`. -/
def countWords (words : List String) : GoMap String Int :=
  words.foldl incrWord []

/-- Line 201. -/
def words : List String := ["apple", "banana", "apple", "cherry", "banana", "apple"]

/-- Chunk written by line 210 for one entry. -/
def frequencyLine (word : String) (count : Int) : String :=
  "  " ++ word ++ ": " ++ fmtD count ++ "\n"

/-- Lines 208-211: `for word, count := range frequency`, the loop taking the
order `order`. -/
def rangeFrequency (order : List String) : List String :=
  ["\nWord frequency:\n"] ++
    rangeMap (countWords words) order (fun word count out => out ++ [frequencyLine word count]) []

/-- State of the loop of lines 216-220: the slice ranged over and `evens`. -/
structure FilterState where
  numbers3 : List Int
  evens : List Int
  deriving DecidableEq, Repr

/-- Lines 217-219: the loop body for one element `num`. -/
def filterStep (s : FilterState) (num : Int) : FilterState :=
  if num.tmod 2 = 0 then { s with evens := goAppend s.evens [num] } else s

/-- Lines 215-220: `evens := []int{}` and the loop over `numbers3`. -/
def filterEvens (numbers3 : List Int) : FilterState :=
  numbers3.foldl filterStep { numbers3 := numbers3, evens := [] }

/-- Lines 214-221 with the literal of line 214: the chunk written. -/
def filterSection : List String :=
  let s := filterEvens [1, 2, 3, 4, 5, 6, 7, 8, 9, 10]
  ["\nEven numbers from " ++ fmtVInts s.numbers3 ++ ": " ++ fmtVInts s.evens ++ "\n"]

/-- Lines 144-147: the map `ages`. -/
def ages : GoMap String Int :=
  let ages : GoMap String Int := []
  let ages := ages.set "Alice" 25
  let ages := ages.set "Bob" 30
  ages.set "Charlie" 35

/-- Lines 224-227: the map `transformed` after `for key, value := range ages`,
the loop taking the order `order`. -/
def transformed (order : List String) : GoMap String Int :=
  rangeMap ages order (fun key value t => t.set key (wrapInt64 (value * 2))) []

end Collections

/-! # examples/01-basics/functions -/

namespace Functions
open GoModel

/-- The `float64` operations used by `divide`; the IEEE arithmetic itself is not
modelled.  `lit n` is the constant `n` converted to `float64`, `eqZero b` is the
comparison `b == 0`. -/
structure Float64Ops (F : Type) where
  lit : Int → F
  eqZero : F → Bool
  div : F → F → F
  eqZero_lit_zero : eqZero (lit 0) = true

/-- Lines 159-164: `divide`. -/
def divide {F : Type} (ops : Float64Ops F) (a b : F) : F × Option String :=
  if ops.eqZero b then (ops.lit 0, some "division by zero")
  else (ops.div a b, none)

/-- Lines 46-56 of `main`: the two calls of `divide`.  `fmt2` is the verb `%.2f`.
The result is the chunks written. -/
def divideSection {F : Type} (ops : Float64Ops F) (fmt2 : F → String) : List String :=
  let out : List String := []
  let (result, err) := divide ops (ops.lit 10) (ops.lit 2)
  let out :=
    match err with
    | some e => out ++ ["Error: " ++ e ++ "\n"]
    | none => out ++ ["10 / 2 = " ++ fmt2 result ++ "\n"]
  let (_, err) := divide ops (ops.lit 10) (ops.lit 0)
  match err with
  | some e => out ++ ["Error: " ++ e ++ "\n"]
  | none => out

/-- Exact rational arithmetic as an instance of the operations (exact on the
arguments `main` passes: 10, 2 and 0). -/
def ratOps : Float64Ops ℚ where
  lit := fun n => (n : ℚ)
  eqZero := fun b => decide (b = 0)
  div := fun a b => a / b
  eqZero_lit_zero := by simp

/-- The captured `count` variables, one cell per call of `makeCounter`. -/
abbrev Heap := List Int

/-- Lines 191-197: `makeCounter` allocates `count := 0` and returns the closure,
identified by the index of its cell. -/
def makeCounter (h : Heap) : Nat × Heap := (h.length, h ++ [0])

/-- Lines 193-196: one call of the closure `c`: `count++; return count`. -/
def callCounter (c : Nat) (h : Heap) : Option (Int × Heap) :=
  match h[c]? with
  | none => none
  | some count =>
    let count := wrapInt64 (count + 1)
    some (count, h.set c count)

/-- Values returned by `n` successive calls of the closure `c`, and the heap after them. -/
def callTimes (c : Nat) (n : Nat) (h : Heap) : Option (List Int × Heap) :=
  match n with
  | 0 => some ([], h)
  | n + 1 =>
    match callTimes c n h with
    | none => none
    | some (rets, h') =>
      match callCounter c h' with
      | none => none
      | some (r, h'') => some (rets ++ [r], h'')

/-- One step of a program that uses counters: `make` is a statement
`x := makeCounter()` (the `i`-th such statement binds the `i`-th variable,
counting from 0) and `call i` is a call `x()` of the variable the `i`-th `make`
bound. -/
inductive Ev where
  | make
  | call (c : Nat)
  deriving DecidableEq, Repr

/-- State of such a program: the closures the `makeCounter()` calls have returned
so far, in the order of the calls, and the heap of captured variables. -/
structure CounterState where
  closures : List Nat
  heap : Heap
  deriving DecidableEq, Repr

/-- Runs a sequence of steps; the result is the values returned by the calls, in
order, and the final state.  A call invokes the closure its variable holds. -/
def runEvents (s : CounterState) (evs : List Ev) : Option (List Int × CounterState) :=
  match evs with
  | [] => some ([], s)
  | Ev.make :: rest =>
    runEvents { closures := s.closures ++ [(makeCounter s.heap).1],
                heap := (makeCounter s.heap).2 } rest
  | Ev.call i :: rest =>
    match s.closures[i]? with
    | none => none
    | some c =>
      match callCounter c s.heap with
      | none => none
      | some (r, h') =>
        match runEvents { closures := s.closures, heap := h' } rest with
        | none => none
        | some (rets, s') => some (r :: rets, s')

/-- Every call in the sequence is a call of a variable bound earlier (`made`
variables are bound at the start). -/
def WellFormed (made : Nat) (evs : List Ev) : Prop :=
  match evs with
  | [] => True
  | Ev.make :: rest => WellFormed (made + 1) rest
  | Ev.call c :: rest => c < made ∧ WellFormed made rest

/-- Number of calls of the variable `c` in a sequence of steps. -/
def callsOf (c : Nat) (evs : List Ev) : Nat :=
  (evs.filter (fun e => decide (e = Ev.call c))).length

/-- Return values as the specification words them: each call returns the number
of calls made on its own counter so far, that call included.  `before` holds
the steps already taken, most recent first. -/
def expectedReturns (before : List Ev) (evs : List Ev) : List Int :=
  match evs with
  | [] => []
  | Ev.make :: rest => expectedReturns (Ev.make :: before) rest
  | Ev.call c :: rest =>
    ((callsOf c before + 1 : Nat) : Int) :: expectedReturns (Ev.call c :: before) rest

/-- Lines 93-99 of `main`: `counter` and `counter2` are the closures the two
`makeCounter()` calls return; the result is the chunks written. -/
def closureSection : Option (List String) := do
  let heap : Heap := []
  let (counter, heap) := makeCounter heap
  let (r1, heap) ← callCounter counter heap
  let (r2, heap) ← callCounter counter heap
  let (r3, heap) ← callCounter counter heap
  let (counter2, heap) := makeCounter heap
  let (r4, _) ← callCounter counter2 heap
  some ["Counter: " ++ fmtD r1 ++ "\n", "Counter: " ++ fmtD r2 ++ "\n",
    "Counter: " ++ fmtD r3 ++ "\n", "Counter2: " ++ fmtD r4 ++ "\n"]

/-- The range of the type `int` (64 bit, two's complement). -/
def InInt64 (x : Int) : Prop := -(2 : Int) ^ 63 ≤ x ∧ x < (2 : Int) ^ 63

/-- Lines 167-171: `divideWithRemainder`.  `/` and `%` on `int` truncate toward
zero and wrap on overflow; a zero divisor is a run-time panic, here `none`: the
function has no statement that handles it. -/
def divideWithRemainder (a b : Int) : Option (Int × Int) :=
  if b = 0 then none
  else
    let quotient := wrapInt64 (a.tdiv b)
    let remainder := wrapInt64 (a.tmod b)
    some (quotient, remainder)

/-- Lines 59-60 of `main`: the call `divideWithRemainder(17, 5)` and the chunk written. -/
def remainderSection : Option (List String) :=
  match divideWithRemainder 17 5 with
  | some (q, r) => some ["17 / 5 = " ++ fmtD q ++ " remainder " ++ fmtD r ++ "\n"]
  | none => none

/-- Lines 220-225: `factorial`; `fuel` bounds the depth of the recursion. -/
def factorial (fuel : Nat) (n : Int) : Option Int :=
  match fuel with
  | 0 => none
  | fuel + 1 =>
    if n ≤ 1 then some 1
    else
      match factorial fuel (wrapInt64 (n - 1)) with
      | none => none
      | some f => some (wrapInt64 (n * f))

/-- Lines 228-233: `fibonacci`; `fuel` bounds the depth of the recursion. -/
def fibonacci (fuel : Nat) (n : Int) : Option Int :=
  match fuel with
  | 0 => none
  | fuel + 1 =>
    if n ≤ 1 then some n
    else
      match fibonacci fuel (wrapInt64 (n - 1)), fibonacci fuel (wrapInt64 (n - 2)) with
      | some x, some y => some (wrapInt64 (x + y))
      | _, _ => none

/-- The Fibonacci numbers as the specification defines them: F(0) = 0, F(1) = 1,
F(k+2) = F(k+1) + F(k). -/
def fibSpec : Nat → Nat
  | 0 => 0
  | 1 => 1
  | k + 2 => fibSpec (k + 1) + fibSpec k

/-- Lines 122-123 of `main`: the two recursive calls and the chunks written. -/
def recursionSection : Option (List String) := do
  let f ← factorial 6 5
  let g ← fibonacci 9 8
  some ["Factorial of 5: " ++ fmtD f ++ "\n", "Fibonacci of 8: " ++ fmtD g ++ "\n"]

end Functions

/-! # examples/01-basics/variables-types -/

namespace VariablesTypes
open GoModel

/-- Conversion of an integer constant to a signed integer type of `bits` bits: a
constant outside the range of the type is rejected by the compiler. -/
def toSigned (bits : Nat) (x : Int) : Option Int :=
  if -(2 : Int) ^ (bits - 1) ≤ x ∧ x ≤ (2 : Int) ^ (bits - 1) - 1 then some x else none

/-- Nearest integer to `num / den`, a tie going to the even neighbour. -/
def roundHalfEven (num den : Nat) : Nat :=
  let q := num / den
  let r := num % den
  if 2 * r < den then q
  else if den < 2 * r then q + 1
  else if q % 2 = 0 then q else q + 1

/-- Largest `k` with `2 ^ k ≤ n` (0 for `n < 2`), for `n < 2 ^ fuel`. -/
def floorLog2 (fuel n : Nat) : Nat :=
  match fuel with
  | 0 => 0
  | fuel + 1 => if n < 2 then 0 else floorLog2 fuel (n / 2) + 1

/-- A finite `float64` of value `mant / 2 ^ scale` with a 53 bit significand
`2 ^ 52 ≤ mant < 2 ^ 53`. -/
structure Float64 where
  mant : Nat
  scale : Nat
  deriving DecidableEq, Repr

/-- Conversion of the constant `num / den` (with `1 ≤ num / den < 2 ^ 52`) to
`float64`: the nearest representable value, ties to even. -/
def toFloat64 (num den : Nat) : Float64 :=
  let k := floorLog2 64 (num / den)
  let scale := 52 - k
  let mant := roundHalfEven (num * 2 ^ scale) den
  if mant = 2 ^ 53 then { mant := 2 ^ 52, scale := scale - 1 } else { mant := mant, scale := scale }

/-- Decimal digits of `n`, padded with leading zeros to `width` digits. -/
def padDigits (width n : Nat) : String :=
  let d := toString n
  String.mk (List.replicate (width - d.length) (Char.ofNat 48)) ++ d

/-- Verb `%.<prec>f` (with `prec > 0`) applied to a `float64`: the exact value
rounded to `prec` decimals, ties to even. -/
def fmtF (prec : Nat) (x : Float64) : String :=
  let n := roundHalfEven (x.mant * 10 ^ prec) (2 ^ x.scale)
  toString (n / 10 ^ prec) ++ "." ++ padDigits prec (n % 10 ^ prec)

/-- Lines 54-61: the signed integer variables and the chunk written for them;
`none` stands for a program the compiler rejects. -/
def integerTypes : Option (Int × String) := do
  let smallInt ← toSigned 8 127
  let regularInt ← toSigned 16 32767
  let bigInt ← toSigned 32 2147483647
  let hugeInt ← toSigned 64 9223372036854775807
  let platformInt ← toSigned 64 123456
  some (smallInt, "\nInteger Types:\nint8: " ++ fmtD smallInt ++ ", int16: " ++ fmtD regularInt ++
    ", int32: " ++ fmtD bigInt ++ ", int64: " ++ fmtD hugeInt ++ ", int: " ++ fmtD platformInt ++
    "\n")

/-- Line 141: the untyped constant `Pi = 3.14159`, converted to `float64` when it
is passed to `Printf`. -/
def Pi : Float64 := toFloat64 314159 100000

/-- Lines 141-153: the chunk written for the constants. -/
def constantsLine : String :=
  let MaxConnections : Int := 100
  let AppName := "Go Learning App"
  "\nConstants:\nPi: " ++ fmtF 5 Pi ++ ", MaxConnections: " ++ fmtD MaxConnections ++
    ", AppName: " ++ AppName ++ "\n"

end VariablesTypes

/-! # Whole programs

The sections above cover the statements the properties single out.  The rest of
each program follows, so that every example has a `main`. -/

namespace GoModel

/-- Lexicographic comparison `a ≤ b` of two sequences of code points (for strings
this is the byte-wise order of their UTF-8 encodings, the order of Go's `<`). -/
def lexLe : List Nat → List Nat → Bool
  | [], _ => true
  | _ :: _, [] => false
  | a :: as, b :: bs => if a < b then true else if b < a then false else lexLe as bs

/-- Code points of a string. -/
def codes (s : String) : List Nat := s.toList.map Char.toNat

/-- Order of string map keys used by `fmt`: `a ≤ b`. -/
def keyLe (a b : String) : Bool := lexLe (codes a) (codes b)

/-- Keys in the order in which `fmt` prints a map: sorted. -/
def sortKeys (ks : List String) : List String :=
  ks.insertionSort (fun a b => keyLe a b = true)

/-- Verb `%v` applied to a map with string keys: `map[k:v k:v]`, the entries in
the order of the sorted keys (the iteration order of the map plays no part);
`fmtVal` is the verb `%v` on a value. -/
def fmtVMap {ν : Type} (fmtVal : ν → String) (m : GoMap String ν) : String :=
  "map[" ++ " ".intercalate ((sortKeys (GoMap.keys m)).map (fun k =>
    k ++ ":" ++ match GoMap.get m k with
      | some v => fmtVal v
      | none => "")) ++ "]"

/-- A `[]int` with its capacity. -/
structure IntSlice where
  elems : List Int
  cap : Nat
  deriving DecidableEq, Repr

/-- Builtin `make([]int, len, cap)`. -/
def makeIntSlice (len cap : Nat) : IntSlice := { elems := goMake len 0, cap := cap }

/-- Allocation size classes of the runtime, up to 128 bytes. -/
def sizeClasses : List Nat := [8, 16, 24, 32, 48, 64, 80, 96, 112, 128]

/-- Size of the block the allocator hands out for a request of `bytes` bytes
(requests above 128 bytes are not reached by the examples). -/
def roundUpSize (bytes : Nat) : Nat :=
  match sizeClasses.find? (fun c => decide (bytes ≤ c)) with
  | some c => c
  | none => bytes

/-- Capacity `append` chooses when a `[]int` of capacity `oldCap` (below 256) has
to grow to hold `needed` elements: the capacity doubles unless that is too
little, and is rounded up to the size class of the allocation (8 bytes per
`int`). -/
def growCap (oldCap needed : Nat) : Nat :=
  let newCap := if 2 * oldCap < needed then needed else 2 * oldCap
  roundUpSize (newCap * 8) / 8

/-- Builtin `append(s, xs...)` on a `[]int` with capacity. -/
def appendIntSlice (s : IntSlice) (xs : List Int) : IntSlice :=
  let needed := s.elems.length + xs.length
  if needed ≤ s.cap then { elems := goAppend s.elems xs, cap := s.cap }
  else { elems := goAppend s.elems xs, cap := growCap s.cap needed }

end GoModel

namespace Collections
open GoModel

/-- Lines 31-53: arrays. -/
def arraysSection : List String :=
  let numbers : List Int := goMake 5 0
  let out := ["Empty array: " ++ fmtVInts numbers ++ " (length: " ++ fmtD numbers.length ++
    ")\n"]
  let primes : List Int := [2, 3, 5, 7, 11]
  let out := out ++ ["Primes: " ++ fmtVInts primes ++ "\n"]
  let days := ["Mon", "Tue", "Wed", "Thu", "Fri"]
  let out := out ++ ["Days: " ++ fmtVStrings days ++ " (length: " ++ fmtD days.length ++ ")\n"]
  let out := out ++ ["First prime: " ++ fmtD (primes.getD 0 0) ++ ", Last prime: " ++
    fmtD (primes.getD 4 0) ++ "\n"]
  let primes := primes.set 0 1
  let out := out ++ ["Modified primes: " ++ fmtVInts primes ++ "\n"]
  let primes := primes.set 0 2
  let primes2 := primes
  let primes2 := primes2.set 0 99
  out ++ ["primes: " ++ fmtVInts primes ++ ", primes2: " ++ fmtVInts primes2 ++
    " (separate copies)\n"]

/-- Lines 61-63: a slice made with `make`. -/
def makeSection : List String :=
  let scores := makeIntSlice 3 3
  ["\nSlice with make: " ++ fmtVInts scores.elems ++ " (len: " ++ fmtD scores.elems.length ++
    ", cap: " ++ fmtD scores.cap ++ ")\n"]

/-- Lines 110-121: length and capacity. -/
def sliceInternals : List String :=
  let numbers2 := makeIntSlice 3 5
  let out := ["\nSlice: " ++ fmtVInts numbers2.elems ++ " (len: " ++
    fmtD numbers2.elems.length ++ ", cap: " ++ fmtD numbers2.cap ++ ")\n"]
  let numbers2 := appendIntSlice numbers2 [10, 20]
  let out := out ++ ["After append: " ++ fmtVInts numbers2.elems ++ " (len: " ++
    fmtD numbers2.elems.length ++ ", cap: " ++ fmtD numbers2.cap ++ ")\n"]
  let numbers2 := appendIntSlice numbers2 [30]
  out ++ ["After exceeding cap: " ++ fmtVInts numbers2.elems ++ " (len: " ++
    fmtD numbers2.elems.length ++ ", cap: " ++ fmtD numbers2.cap ++ ")\n"]

/-- Lines 128-136: a slice of slices. -/
def matrixSection : List String :=
  let matrix : List (List Int) := [[1, 2, 3], [4, 5, 6], [7, 8, 9]]
  matrix.enum.foldl (fun out p => out ++ ["  Row " ++ fmtD p.1 ++ ": " ++ fmtVInts p.2 ++ "\n"])
    ["\n2D Slice (Matrix):\n"]

/-- Lines 144-179: maps. -/
def mapsSection : List String :=
  let out := ["\nAges map: " ++ fmtVMap fmtD ages ++ "\n"]
  let capitals : GoMap String String :=
    [("USA", "Washington DC"), ("UK", "London"), ("France", "Paris"), ("Germany", "Berlin")]
  let out := out ++ ["Capitals: " ++ fmtVMap id capitals ++ "\n"]
  let out := out ++ ["Capital of France: " ++ capitals.getD "France" "" ++ "\n"]
  let out :=
    match capitals.get "Japan" with
    | some capital => out ++ ["Capital of Japan: " ++ capital ++ "\n"]
    | none => out ++ ["Japan not found in map\n"]
  let capitals := capitals.set "Japan" "Tokyo"
  let out := out ++ ["After adding Japan: " ++ fmtVMap id capitals ++ "\n"]
  let capitals := capitals.delete "UK"
  let out := out ++ ["After deleting UK: " ++ fmtVMap id capitals ++ "\n"]
  out ++ ["Map size: " ++ fmtD capitals.length ++ "\n"]

/-- Lines 185-189: iteration over a slice. -/
def fruitsSection : List String :=
  let fruits := ["apple", "banana", "cherry"]
  fruits.enum.foldl (fun out p => out ++ ["  " ++ fmtD p.1 ++ ": " ++ p.2 ++ "\n"])
    ["\nIterating over slice:\n"]

/-- Line 228: the chunk written for the map `transformed`, built by a loop that
took the order `order`. -/
def agesDoubledLine (order : List String) : String :=
  "Ages doubled: " ++ fmtVMap fmtD (transformed order) ++ "\n"

/-- Function `main`: the chunks written to standard output in a run whose map
loops (`range capitals`, `range frequency`, `range ages`) take the given orders. -/
def main (capitalsOrder frequencyOrder agesOrder : List String) : List String :=
  ["=== Arrays, Slices, and Maps ===\n\n"] ++ arraysSection ++ makeSection ++
    sliceOperations.1 ++ sliceInternals ++ matrixSection ++ mapsSection ++ fruitsSection ++
    rangeCapitals capitalsOrder ++ rangeFrequency frequencyOrder ++ filterSection ++
    [agesDoubledLine agesOrder] ++ ["\n✅ Arrays, Slices, and Maps completed!\n"]

end Collections

namespace Functions
open GoModel

/-- Lines 139-141: `greet`. -/
def greet (name : String) : List String := ["Hello, " ++ name ++ "!\n"]

/-- Lines 144-146: `greetWithAge`. -/
def greetWithAge (name : String) (age : Int) : List String :=
  ["Hello, " ++ name ++ "! You are " ++ fmtD age ++ " years old.\n"]

/-- Lines 149-151: `add`. -/
def add (a b : Int) : Int := wrapInt64 (a + b)

/-- Lines 154-156: `subtract`. -/
def subtract (a b : Int) : Int := wrapInt64 (a - b)

/-- Lines 174-180: `sumAll`. -/
def sumAll (numbers : List Int) : Int :=
  numbers.foldl (fun total num => wrapInt64 (total + num)) 0

/-- Lines 183-188: `displayInfo`. -/
def displayInfo (name : String) (details : List String) : List String :=
  details.enum.foldl
    (fun out p => out ++ ["  Detail " ++ fmtD (wrapInt64 (p.1 + 1)) ++ ": " ++ p.2 ++ "\n"])
    ["Name: " ++ name ++ "\n"]

/-- Lines 200-206: `mapInts`. -/
def mapInts (numbers : List Int) (fn : Int → Int) : List Int :=
  numbers.enum.foldl (fun result p => result.set p.1 (fn p.2)) (goMake numbers.length 0)

/-- Lines 209-217: `filterInts`. -/
def filterInts (numbers : List Int) (predicate : Int → Bool) : List Int :=
  numbers.foldl (fun result n => if predicate n then goAppend result [n] else result) []

/-- Lines 236-244: `processFile`, with its own stack of deferred calls. -/
def processFile (filename : String) : List String :=
  let e : ControlFlow.Env := { out := [], deferred := [] }
  let e := e.print ("\nProcessing file: " ++ filename ++ "\n")
  let e := e.defer "  Closed file\n"
  let e := e.defer "  Cleanup completed\n"
  let e := e.print "  Opened file\n"
  let e := e.print "  Reading data\n"
  let e := e.print "  Processing data\n"
  e.runDeferred

/-- Verb `%.<prec>f` on a non-negative value held as an exact rational. -/
def fmtRat (prec : Nat) (q : ℚ) : String :=
  let n := VariablesTypes.roundHalfEven (q.num.toNat * 10 ^ prec) q.den
  toString (n / 10 ^ prec) ++ "." ++ VariablesTypes.padDigits prec (n % 10 ^ prec)

/-- Function `main`: the chunks written to standard output.  The `float64`
values of lines 46-56 are held as exact rationals (10, 2, 0 and 10 / 2 are
exact in `float64`). -/
def main : Option (List String) := do
  let out := ["=== Functions in Go ===\n\n"] ++ greet "Alice" ++ greetWithAge "Bob" 30
  let sum := add 5 3
  let out := out ++ ["5 + 3 = " ++ fmtD sum ++ "\n"]
  let out := out ++ divideSection ratOps (fmtRat 2)
  let s ← remainderSection
  let out := out ++ s
  let total := sumAll [1, 2, 3, 4, 5]
  let out := out ++ ["Sum of 1,2,3,4,5 = " ++ fmtD total ++ "\n"]
  let out := out ++ displayInfo "Alice" ["Engineer", "NYC", "alice@example.com"]
  let out := out ++ ["Anonymous function called!\n"]
  let multiply := fun (a b : Int) => wrapInt64 (a * b)
  let out := out ++ ["5 * 3 = " ++ fmtD (multiply 5 3) ++ "\n"]
  let s ← closureSection
  let out := out ++ s
  let nums : List Int := [1, 2, 3, 4, 5]
  let doubled := mapInts nums (fun n => wrapInt64 (n * 2))
  let out := out ++ ["Original: " ++ fmtVInts nums ++ ", Doubled: " ++ fmtVInts doubled ++ "\n"]
  let evens := filterInts nums (fun n => decide (n.tmod 2 = 0))
  let out := out ++ ["Even numbers: " ++ fmtVInts evens ++ "\n"]
  let s ← recursionSection
  let out := out ++ s
  let out := out ++ processFile "data.txt"
  some (out ++ ["\n✅ Functions completed!\n"])

end Functions

namespace VariablesTypes
open GoModel

/-- Conversion of an integer constant to an unsigned integer type of `bits` bits:
a constant outside the range of the type is rejected by the compiler. -/
def toUnsigned (bits : Nat) (x : Int) : Option Int :=
  if 0 ≤ x ∧ x ≤ (2 : Int) ^ bits - 1 then some x else none

/-- Conversion of the constant `num / den` (with `1 ≤ num / den < 2 ^ 23`) to
`float32`: the nearest value with a 24 bit significand, ties to even.  `Printf`
receives it widened to `float64`, which holds the same value. -/
def toFloat32 (num den : Nat) : Float64 :=
  let k := floorLog2 64 (num / den)
  let scale := 23 - k
  let mant := roundHalfEven (num * 2 ^ scale) den
  if mant = 2 ^ 24 then { mant := 2 ^ 23, scale := scale - 1 } else { mant := mant, scale := scale }

/-- The `float64` zero. -/
def zeroFloat64 : Float64 := { mant := 0, scale := 0 }

/-- Conversion `[]byte(s)` for ASCII text: one byte per character. -/
def toBytes (s : String) : List Int := s.toList.map (fun c => (c.toNat : Int))

/-- Conversion `string(bytes)` for ASCII bytes. -/
def ofBytes (bytes : List Int) : String := String.mk (bytes.map (fun b => Char.ofNat b.toNat))

/-- Lines 64-70: the unsigned integer variables and the chunk written for them. -/
def unsignedTypes : Option String := do
  let unsignedByte ← toUnsigned 8 255
  let unsignedSmall ← toUnsigned 16 65535
  let unsignedBig ← toUnsigned 32 4294967295
  let unsignedHuge ← toUnsigned 64 18446744073709551615
  some ("Unsigned: uint8: " ++ fmtD unsignedByte ++ ", uint16: " ++ fmtD unsignedSmall ++
    ", uint32: " ++ fmtD unsignedBig ++ ", uint64: " ++ fmtD unsignedHuge ++ "\n")

/-- Lines 73-101: floating point numbers, booleans, strings, runes and bytes. -/
def basicTypes : List String :=
  let price := toFloat32 1999 100
  let precise := toFloat64 314159265359 100000000000
  let out := ["\nFloating Point:\nfloat32: " ++ fmtF 2 price ++ ", float64: " ++
    fmtF 11 precise ++ "\n"]
  let isActive := true
  let isDeleted := false
  let out := out ++ ["\nBoolean:\nisActive: " ++ toString isActive ++ ", isDeleted: " ++
    toString isDeleted ++ "\n"]
  let greeting := "Hello, Go!"
  let multiLine := "This is a\nmulti-line string\nusing backticks"
  let out := out ++ ["\nStrings:\ngreeting: " ++ greeting ++ "\nmultiLine: " ++ multiLine ++
    "\n"]
  let letter := 'A'
  let emoji := Char.ofNat 128512
  let out := out ++ ["\nRunes:\nletter: " ++ fmtC letter ++ " (value: " ++ fmtD letter.toNat ++
    "), emoji: " ++ fmtC emoji ++ " (value: " ++ fmtD emoji.toNat ++ ")\n"]
  let b := 'Z'
  out ++ ["Byte: " ++ fmtC b ++ " (value: " ++ fmtD b.toNat ++ ")\n"]

/-- Lines 108-134: zero values and type conversion. -/
def zeroAndConversion : List String :=
  let quote := String.singleton (Char.ofNat 39)
  let defaultInt : Int := 0
  let defaultFloat := zeroFloat64
  let defaultBool := false
  let defaultString := ""
  let out := ["\nZero Values:\nint: " ++ fmtD defaultInt ++ ", float64: " ++
    fmtF 1 defaultFloat ++ ", bool: " ++ toString defaultBool ++ ", string: " ++ quote ++
    defaultString ++ quote ++ "\n"]
  let integer : Nat := 42
  let floating := toFloat64 integer 1
  let unsigned : Int := integer
  let out := out ++ ["\nType Conversion:\nint: " ++ fmtD integer ++ " -> float64: " ++
    fmtF 1 floating ++ ", uint: " ++ fmtD unsigned ++ "\n"]
  let text := "Hello"
  let bytes := toBytes text
  let backToString := ofBytes bytes
  out ++ ["String " ++ quote ++ text ++ quote ++ " -> Bytes: " ++ fmtVInts bytes ++
    " -> String: " ++ quote ++ backToString ++ quote ++ "\n"]

/-- Lines 146-182: the remaining constants, `iota` and type inference. -/
def constantsAndInference : List String :=
  let StatusOK : Int := 200
  let StatusNotFound : Int := 404
  let StatusError : Int := 500
  let out := ["HTTP Status Codes: OK=" ++ fmtD StatusOK ++ ", NotFound=" ++
    fmtD StatusNotFound ++ ", Error=" ++ fmtD StatusError ++ "\n"]
  let iota : Nat → Int := fun index => index
  let Sunday := iota 0
  let Monday := iota 1
  let Friday := iota 5
  let out := out ++ ["\nDays using iota:\nSunday=" ++ fmtD Sunday ++ ", Monday=" ++
    fmtD Monday ++ ", Friday=" ++ fmtD Friday ++ "\n"]
  out ++ ["\nType Inference:\nint, float64, string, bool\n"]

/-- Function `main`: the chunks written to standard output. -/
def main : Option (List String) := do
  let name := "John Doe"
  let out := ["=== Variables and Types in Go ===\n\n",
    "Method 1 - Explicit type: " ++ name ++ "\n"]
  let age : Int := 25
  let out := out ++ ["Method 2 - Type inference: " ++ fmtD age ++ "\n"]
  let email := "john@example.com"
  let out := out ++ ["Method 3 - Short declaration: " ++ email ++ "\n"]
  let firstName := "Alice"
  let lastName := "Smith"
  let salary : Int := 75000
  let out := out ++ ["Method 4 - Multiple: " ++ firstName ++ " " ++ lastName ++ " earns $" ++
    fmtD salary ++ "\n"]
  let ints ← integerTypes
  let out := out ++ [ints.2]
  let unsigned ← unsignedTypes
  let out := out ++ [unsigned]
  let out := out ++ basicTypes ++ zeroAndConversion ++ [constantsLine] ++ constantsAndInference
  some (out ++ ["\n✅ Basics: Variables and Types completed!\n"])

end VariablesTypes

namespace Demo
open GoModel

/-- Lines 35-116: `showMenu`.  The result is the chunks written and the status
passed to `os.Exit`, which ends the program. -/
def showMenu : Option (List String × Nat) := do
  let out : List String :=
    ["📚 Learning Modules Available:\n\n",
      "🔹 Beginner Level (01-basics):\n",
      "   1. Variables and Types\n",
      "   2. Control Flow (if, switch, for, defer)\n",
      "   3. Functions (closures, recursion, higher-order)\n",
      "   4. Collections (arrays, slices, maps)\n",
      "\n🔹 Intermediate Level (02-structs-interfaces):\n",
      "   5. Structs and Methods\n",
      "   6. Interfaces and Polymorphism\n",
      "   7. Error Handling\n",
      "   8. Pointers\n",
      "\n🔹 Web Development (03-04):\n",
      "   9. HTTP Server Basics\n",
      "   10. RESTful API with JSON\n",
      "\n🔹 Advanced Concurrency (05-06):\n",
      "   11. Goroutines and Channels\n",
      "   12. Context, WaitGroups, Mutex\n",
      "\n🔹 Database (07):\n",
      "   13. SQL Operations with SQLite\n",
      "\n🔹 Testing (08):\n",
      "   14. Unit Tests and Benchmarks\n",
      "\n🔹 Design Patterns (09):\n",
      "   15. Factory, Singleton, Builder, Strategy, Observer\n",
      "\n🔹 Packages & Modules (10):\n",
      "   16. Creating and Using Custom Packages\n",
      "\n🔹 Performance Optimization (11):\n",
      "   17. sync.Pool, sync.Map, sync.Once, String Builder, Worker Pools\n",
      "\n🔹 Large Data Processing (12):\n",
      "   18. 1BRC Techniques: Chunking, Sharding, Buffer Pooling\n"]
  let out := out ++ ["\n" ++ String.mk (goMake 56 (Char.ofNat 0)) ++ "\n"]
  let r ← forLoop 57 (fun (c : ControlFlow.Counting) => decide (c.i < 56))
    ControlFlow.Counting.incr
    (fun c => some ({ c with out := c.out ++ ["─"] }, Flow.next)) { i := 0, out := out }
  let out := r.1.out ++ ["\n"]
  let out := out ++
    ["\n💡 How to run examples:\n",
      "   cd examples/01-basics/variables-types && go run main.go\n",
      "   cd examples/03-http-server/basic-server && go run main.go\n",
      "   cd examples/04-rest-api && go run main.go\n",
      "   cd examples/05-concurrency/goroutines && go run main.go\n",
      "   cd examples/07-database/sql-basics && go run main.go\n",
      "   cd examples/09-patterns && go run main.go\n",
      "   cd examples/10-packages-modules/app && go run main.go\n",
      "   cd examples/11-performance && go run main.go\n",
      "   cd examples/12-large-data-processing && go run main.go\n",
      "\n💡 Run tests:\n",
      "   cd examples/08-testing && go test -v\n",
      "   cd examples/08-testing && go test -bench=.\n",
      "\n📖 Project Structure:\n",
      "   examples/  - All learning examples organized by topic\n",
      "   cmd/       - Command-line applications\n",
      "   pkg/       - Reusable packages\n",
      "   internal/  - Private application code\n",
      "\n🚀 Quick Start Recommendations:\n",
      "   1. Start with basics: variables, control flow, functions\n",
      "   2. Learn structs and interfaces\n",
      "   3. Build HTTP servers and APIs\n",
      "   4. Master concurrency (goroutines, channels)\n",
      "   5. Practice with databases and testing\n",
      "   6. Study design patterns and packages\n",
      "   7. Optimize performance for production\n",
      "   8. Process large datasets efficiently\n",
      "\n✨ Happy Learning! ✨\n\n"]
  some (out, 0)

/-- Lines 25-33: `main`; the chunks written and the exit status. -/
def main : Option (List String × Nat) := do
  let out : List String :=
    ["╔════════════════════════════════════════════════════════╗\n",
      "║     Welcome to Go Learning Project!                   ║\n",
      "║     From Beginner to Advanced                         ║\n",
      "╚════════════════════════════════════════════════════════╝\n"]
  let out := out ++ ["\n"]
  let menu ← showMenu
  some (out ++ menu.1, menu.2)

end Demo

namespace Examples
open GoModel

/-- The five example programs. -/
inductive Program where
  | collections
  | controlFlow
  | functions
  | variablesTypes
  | demo
  deriving DecidableEq, Repr

/-- What one run chooses: the iteration order of each `range` over a map (lines
192, 209 and 225 of the collections example, line 183 of the control-flow
example).  The other programs contain no such loop. -/
structure Run where
  capitals : List String
  frequency : List String
  ages : List String
  person : List String
  deriving DecidableEq, Repr

/-- Every order of the run visits each key of its map exactly once. -/
abbrev Run.Valid (r : Run) : Prop :=
  IterOrder Collections.capitals r.capitals ∧
  IterOrder (Collections.countWords Collections.words) r.frequency ∧
  IterOrder Collections.ages r.ages ∧
  IterOrder ControlFlow.person r.person

/-- Chunks a program writes to standard output in a run. -/
def output (p : Program) (r : Run) : Option (List String) :=
  match p with
  | Program.collections => some (Collections.main r.capitals r.frequency r.ages)
  | Program.controlFlow => ControlFlow.main r.person
  | Program.functions => Functions.main
  | Program.variablesTypes => VariablesTypes.main
  | Program.demo => Demo.main.map (fun p => p.1)

end Examples

/-! # Theorems -/

namespace GoModel

theorem wrapInt64_of_range (x : Int) (hlo : -(2 : Int) ^ 63 ≤ x) (hhi : x < (2 : Int) ^ 63) :
    wrapInt64 x = x := by
  unfold wrapInt64
  omega

end GoModel

namespace Collections
open GoModel

/-- C2 as stated fails: the final value of `colors` is not
`[red green purple orange black white]`, and the chunk written by line 103 does
not show that list. -/
theorem colors_final_ne_claimed :
    sliceOperations.2 ≠ ["red", "green", "purple", "orange", "black", "white"] ∧
    sliceOperations.1.getLast? ≠
      some "After removing index 2: [red green purple orange black white]\n" := by
  decide

/-- C2 (amended): after the three appends and the removal of index 2 the slice
`colors` is `[red green yellow purple orange black white]` (only `blue` is gone),
and that is the list the line "After removing index 2" shows. -/
theorem colors_final :
    sliceOperations.2 = ["red", "green", "yellow", "purple", "orange", "black", "white"] ∧
    sliceOperations.1.getLast? =
      some "After removing index 2: [red green yellow purple orange black white]\n" := by
  decide

end Collections

namespace ControlFlow
open GoModel

/-- C6: the labelled-break block writes the pairs (0,0), (0,1), (0,2), (1,0) in
that order and nothing else; the outer loop stops through `break OuterLoop` in
the state `i = 1`, `j = 1`. -/
theorem labeled_break_pairs :
    outerLoop = some (Nested.mk 1 1
      ["  i=0, j=0\n", "  i=0, j=1\n", "  i=0, j=2\n", "  i=1, j=0\n"], Flow.breakLabel) ∧
    labeledBreak = some ["  i=0, j=0\n", "  i=0, j=1\n", "  i=0, j=2\n", "  i=1, j=0\n"] := by
  decide

/-- C7 as stated fails: the labelled-break block does not write exactly two lines. -/
theorem labeled_break_not_two_lines :
    ¬ ∃ out, labeledBreak = some out ∧ out.length = 2 := by
  decide

/-- C7 (amended): the labelled-break block writes exactly four lines, each of the
form `  i=<i>, j=<j>`, before the outer loop is terminated. -/
theorem labeled_break_four_lines :
    ∃ out, labeledBreak = some out ∧ out.length = 4 ∧
      ∀ l ∈ out, ∃ i j : Int, l = "  i=" ++ fmtD i ++ ", j=" ++ fmtD j ++ "\n" := by
  refine ⟨["  i=0, j=0\n", "  i=0, j=1\n", "  i=0, j=2\n", "  i=1, j=0\n"], by decide, by decide, ?_⟩
  intro l hl
  simp only [List.mem_cons, List.mem_singleton, List.not_mem_nil, or_false] at hl
  rcases hl with rfl | rfl | rfl | rfl
  · exact ⟨0, 0, by decide⟩
  · exact ⟨0, 1, by decide⟩
  · exact ⟨0, 2, by decide⟩
  · exact ⟨1, 0, by decide⟩

end ControlFlow

namespace VariablesTypes
open GoModel

/-- C10: `smallInt` is 127, which the `int8` range -128..127 holds and of which it
is the maximum, and it is written as `127`; `Pi = 3.14159` formatted with `%.5f`
is written as `3.14159`. -/
theorem smallInt_and_pi_text :
    integerTypes = some (127, "\nInteger Types:\nint8: 127, int16: 32767, int32: 2147483647, " ++
      "int64: 9223372036854775807, int: 123456\n") ∧
    toSigned 8 127 = some 127 ∧ toSigned 8 128 = none ∧ toSigned 8 (-128) = some (-128) ∧
    toSigned 8 (-129) = none ∧ fmtD 127 = "127" ∧
    fmtF 5 Pi = "3.14159" ∧
    constantsLine =
      "\nConstants:\nPi: 3.14159, MaxConnections: 100, AppName: Go Learning App\n" := by
  decide

end VariablesTypes

namespace Functions
open GoModel

/-- C3: `divide(a, b)` returns a non-nil error exactly when `b == 0`; then the
error text is "division by zero" and the result is the constant 0; otherwise the
error is nil and the result is `a / b`.  In `main` the call `divide(10, 0)`
returns that error, and the block of the two calls writes one chunk per call,
the second being the error line (no quotient is written for the second call). -/
theorem divide_error_iff_zero {F : Type} (ops : Float64Ops F) (a b : F) (fmt2 : F → String) :
    ((divide ops a b).2 ≠ none ↔ ops.eqZero b = true) ∧
    (divide ops a b).2 = (if ops.eqZero b = true then some "division by zero" else none) ∧
    (divide ops a b).1 = (if ops.eqZero b = true then ops.lit 0 else ops.div a b) ∧
    divide ops (ops.lit 10) (ops.lit 0) = (ops.lit 0, some "division by zero") ∧
    (∃ first, divideSection ops fmt2 = [first, "Error: division by zero\n"]) ∧
    divide ratOps 10 2 = (5, none) ∧
    divideSection ratOps (fun _ => "5.00") = ["10 / 2 = 5.00\n", "Error: division by zero\n"] := by
  have h0 : divide ops (ops.lit 10) (ops.lit 0) = (ops.lit 0, some "division by zero") := by
    simp [divide, ops.eqZero_lit_zero]
  have hr : divide ratOps 10 2 = (5, none) := by
    simp [divide, ratOps]
    norm_num
  have hr0 : divide ratOps 10 0 = (0, some "division by zero") := by
    simp [divide, ratOps]
  refine ⟨?_, ?_, ?_, h0, ?_, hr, ?_⟩
  · unfold divide
    cases ops.eqZero b <;> simp
  · unfold divide
    cases ops.eqZero b <;> simp
  · unfold divide
    cases ops.eqZero b <;> simp
  · unfold divideSection
    rw [h0]
    cases hd : divide ops (ops.lit 10) (ops.lit 2) with
    | mk result err =>
      cases err with
      | none => exact ⟨_, rfl⟩
      | some e => exact ⟨_, rfl⟩
  · have e10 : ratOps.lit 10 = (10 : ℚ) := by simp [ratOps]
    have e2 : ratOps.lit 2 = (2 : ℚ) := by simp [ratOps]
    have e0 : ratOps.lit 0 = (0 : ℚ) := by simp [ratOps]
    unfold divideSection
    rw [e10, e2, e0, hr, hr0]
    rfl

end Functions

namespace Collections
open GoModel

theorem foldl_filterStep_numbers3 (l : List Int) (s : FilterState) :
    (l.foldl filterStep s).numbers3 = s.numbers3 := by
  induction l generalizing s with
  | nil => rfl
  | cons x xs ih =>
    rw [List.foldl_cons, ih]
    unfold filterStep
    split <;> rfl

theorem foldl_filterStep_evens (l : List Int) (s : FilterState) :
    (l.foldl filterStep s).evens = s.evens ++ l.filter (fun n => decide (2 ∣ n)) := by
  induction l generalizing s with
  | nil => simp
  | cons x xs ih =>
    rw [List.foldl_cons, ih]
    unfold filterStep goAppend
    by_cases hx : x.tmod 2 = 0
    · have hd : (2 : Int) ∣ x := Int.dvd_of_tmod_eq_zero hx
      simp [hx, hd]
    · have hd : ¬ (2 : Int) ∣ x := fun h => hx (Int.tmod_eq_zero_of_dvd h)
      simp [hx, hd]

/-- C9: for every list of integers the filtering loop leaves in `evens` exactly
the elements divisible by 2, in their original order and with their original
multiplicity, and leaves the input unchanged; for 1..10 it yields
`[2 4 6 8 10]`. -/
theorem filter_keeps_evens (numbers3 : List Int) :
    (filterEvens numbers3).evens = numbers3.filter (fun n => decide (2 ∣ n)) ∧
    (filterEvens numbers3).evens.Sublist numbers3 ∧
    (∀ n : Int, (filterEvens numbers3).evens.count n =
      if 2 ∣ n then numbers3.count n else 0) ∧
    (filterEvens numbers3).numbers3 = numbers3 ∧
    (filterEvens [1, 2, 3, 4, 5, 6, 7, 8, 9, 10]).evens = [2, 4, 6, 8, 10] ∧
    (filterEvens [-4, -3, -1, 0, 7]).evens = [-4, 0] ∧
    filterSection = ["\nEven numbers from [1 2 3 4 5 6 7 8 9 10]: [2 4 6 8 10]\n"] := by
  have hev : (filterEvens numbers3).evens = numbers3.filter (fun n => decide (2 ∣ n)) := by
    unfold filterEvens
    rw [foldl_filterStep_evens]
    rfl
  refine ⟨hev, ?_, ?_, ?_, by decide, by decide, by decide⟩
  · rw [hev]
    exact List.filter_sublist numbers3
  · intro n
    rw [hev]
    by_cases hn : (2 : Int) ∣ n
    · rw [if_pos hn]
      exact List.count_filter (by simpa using hn)
    · rw [if_neg hn]
      apply List.count_eq_zero_of_not_mem
      intro hmem
      exact hn (by simpa using (List.mem_filter.mp hmem).2)
  · unfold filterEvens
    rw [foldl_filterStep_numbers3]

end Collections

namespace Functions
open GoModel

theorem callCounter_of_cell (c : Nat) (h : Heap) (v : Int) (hc : h[c]? = some v)
    (hlo : 0 ≤ v) (hhi : v + 1 < (2 : Int) ^ 63) :
    callCounter c h = some (v + 1, h.set c (v + 1)) := by
  unfold callCounter
  rw [hc]
  simp only
  rw [wrapInt64_of_range (v + 1) (by omega) hhi]

theorem callTimes_of_cell (c : Nat) (n : Nat) (h : Heap) (v : Int) (hc : h[c]? = some v)
    (hlo : 0 ≤ v) (hhi : v + (n : Int) < (2 : Int) ^ 63) :
    ∃ h', callTimes c n h = some ((List.range n).map (fun (k : Nat) => v + (k : Int) + 1), h') ∧
      h'[c]? = some (v + (n : Int)) := by
  induction n with
  | zero => exact ⟨h, by simp [callTimes], by simpa using hc⟩
  | succ n ih =>
    obtain ⟨h', hrun, hcell⟩ := ih (by push_cast at hhi; omega)
    have hcall := callCounter_of_cell c h' (v + (n : Int)) hcell (by omega)
      (by push_cast at hhi; omega)
    refine ⟨h'.set c (v + (n : Int) + 1), ?_, ?_⟩
    · simp only [callTimes, hrun, hcall, List.range_succ, List.map_append, List.map_cons,
        List.map_nil]
    · have hlt : c < h'.length := by
        rcases Nat.lt_or_ge c h'.length with hl | hl
        · exact hl
        · rw [List.getElem?_eq_none hl] at hcell
          cases hcell
      rw [List.getElem?_set_self hlt]
      push_cast
      congr 1
      omega

/-- C4: for a counter obtained from `makeCounter()` (in any heap) and every
`n ≥ 1` below the overflow bound, `n` successive calls return 1, 2, ..., `n`:
the first call returns 1, every later call one more than the call before it, and
the `n`-th call returns `n`. -/
theorem counter_nth_call (h : Heap) (n : Nat) (hpos : 1 ≤ n) (hn : (n : Int) < (2 : Int) ^ 63) :
    ∃ rets h', callTimes (makeCounter h).1 n (makeCounter h).2 = some (rets, h') ∧
      rets = (List.range n).map (fun (k : Nat) => (k : Int) + 1) ∧
      rets.head? = some 1 ∧ rets.getLast? = some (n : Int) := by
  have hc : (makeCounter h).2[(makeCounter h).1]? = some (0 : Int) := by
    simp [makeCounter]
  obtain ⟨h', hrun, _⟩ := callTimes_of_cell (makeCounter h).1 n (makeCounter h).2 0 hc
    (le_refl 0) (by omega)
  refine ⟨_, h', hrun, ?_, ?_, ?_⟩
  · simp
  · obtain ⟨m, rfl⟩ : ∃ m, n = m + 1 := ⟨n - 1, by omega⟩
    simp [List.range_succ_eq_map]
  · obtain ⟨m, rfl⟩ : ∃ m, n = m + 1 := ⟨n - 1, by omega⟩
    simp [List.range_succ]

/-- Witness of C4: the third call of a fresh counter returns 3. -/
theorem counter_nth_call_witness :
    ∃ rets h', callTimes (makeCounter []).1 3 (makeCounter []).2 = some (rets, h') ∧
      rets = (List.range 3).map (fun (k : Nat) => (k : Int) + 1) ∧
      rets.head? = some 1 ∧ rets.getLast? = some ((3 : Nat) : Int) :=
  counter_nth_call [] 3 (by decide) (by decide)

theorem callsOf_le_length (c : Nat) (evs : List Ev) : callsOf c evs ≤ evs.length := by
  unfold callsOf
  exact List.length_filter_le _ _

theorem callsOf_make (c : Nat) (evs : List Ev) : callsOf c (Ev.make :: evs) = callsOf c evs := by
  simp [callsOf]

theorem callsOf_call_self (c : Nat) (evs : List Ev) :
    callsOf c (Ev.call c :: evs) = callsOf c evs + 1 := by
  simp [callsOf]

theorem callsOf_call_other (c c' : Nat) (evs : List Ev) (hne : c' ≠ c) :
    callsOf c (Ev.call c' :: evs) = callsOf c evs := by
  simp [callsOf, hne]

theorem callCounter_frame (h : Heap) (c1 c2 : Nat) (r : Int) (h' : Heap) (hne : c1 ≠ c2)
    (hcall : callCounter c1 h = some (r, h')) : h'[c2]? = h[c2]? := by
  unfold callCounter at hcall
  cases hc : h[c1]? with
  | none => rw [hc] at hcall; cases hcall
  | some v =>
    rw [hc] at hcall
    simp only [Option.some.injEq, Prod.mk.injEq] at hcall
    rw [← hcall.2]
    exact List.getElem?_set_ne hne

theorem makeCounter_fresh (h : Heap) :
    h[(makeCounter h).1]? = none ∧ (makeCounter h).2[(makeCounter h).1]? = some 0 ∧
    (∀ (c : Nat) (v : Int), h[c]? = some v → (makeCounter h).2[c]? = some v) := by
  refine ⟨by simp [makeCounter], by simp [makeCounter], ?_⟩
  intro c v hc
  have hlt : c < h.length := by
    rcases Nat.lt_or_ge c h.length with hl | hl
    · exact hl
    · rw [List.getElem?_eq_none hl] at hc
      cases hc
  simp only [makeCounter]
  rw [List.getElem?_append_left hlt]
  exact hc

theorem runEvents_expected (evs : List Ev) (before : List Ev) (s : CounterState)
    (hcl : s.closures = List.range s.heap.length)
    (hinv : ∀ c, (s.heap[c]?).getD 0 = ((callsOf c before : Nat) : Int))
    (hwf : WellFormed s.closures.length evs)
    (hlen : ((before.length + evs.length : Nat) : Int) < (2 : Int) ^ 63) :
    ∃ s', runEvents s evs = some (expectedReturns before evs, s') ∧
      s'.closures = List.range s'.heap.length := by
  induction evs generalizing before s with
  | nil => exact ⟨s, rfl, hcl⟩
  | cons e rest ih =>
    cases e with
    | make =>
      have hcl' : s.closures ++ [(makeCounter s.heap).1] =
          List.range (makeCounter s.heap).2.length := by
        simp [makeCounter, hcl, List.range_succ]
      have hwf' : WellFormed (s.closures ++ [(makeCounter s.heap).1]).length rest := by
        simpa [WellFormed] using hwf
      have hinv' : ∀ c, ((makeCounter s.heap).2[c]?).getD 0 =
          ((callsOf c (Ev.make :: before) : Nat) : Int) := by
        intro c
        rw [callsOf_make, ← hinv c]
        simp only [makeCounter]
        rcases Nat.lt_trichotomy c s.heap.length with hl | hl | hl
        · rw [List.getElem?_append_left hl]
        · subst hl
          simp
        · rw [List.getElem?_eq_none (by simp; omega), List.getElem?_eq_none (by omega)]
      obtain ⟨s', hrun, hs'⟩ := ih (Ev.make :: before)
        { closures := s.closures ++ [(makeCounter s.heap).1], heap := (makeCounter s.heap).2 }
        hcl' hinv' hwf'
        (by simp only [List.length_cons] at hlen ⊢; push_cast at hlen ⊢; omega)
      exact ⟨s', by simp only [runEvents, expectedReturns, hrun], hs'⟩
    | call c =>
      have hc' : c < s.closures.length := hwf.1
      have hc : c < s.heap.length := by
        rw [hcl, List.length_range] at hc'
        exact hc'
      have hclosure : s.closures[c]? = some c := by
        rw [hcl, List.getElem?_range hc]
      have hcell : s.heap[c]? = some ((callsOf c before : Nat) : Int) := by
        have := hinv c
        rw [List.getElem?_eq_getElem hc] at this ⊢
        simpa using this
      have hbound := callsOf_le_length c before
      have hcall := callCounter_of_cell c s.heap _ hcell (by omega)
        (by simp only [List.length_cons] at hlen; push_cast at hlen; omega)
      have hcl' : s.closures =
          List.range (s.heap.set c (((callsOf c before : Nat) : Int) + 1)).length := by
        simpa using hcl
      have hinv' : ∀ c', ((s.heap.set c (((callsOf c before : Nat) : Int) + 1))[c']?).getD 0 =
          ((callsOf c' (Ev.call c :: before) : Nat) : Int) := by
        intro c'
        by_cases hcc : c = c'
        · subst hcc
          rw [List.getElem?_set_self hc, callsOf_call_self]
          simp
        · rw [List.getElem?_set_ne hcc, callsOf_call_other c' c before hcc]
          exact hinv c'
      obtain ⟨s', hrun, hs'⟩ := ih (Ev.call c :: before)
        { closures := s.closures,
          heap := s.heap.set c (((callsOf c before : Nat) : Int) + 1) }
        hcl' hinv' hwf.2
        (by simp only [List.length_cons] at hlen ⊢; push_cast at hlen ⊢; omega)
      refine ⟨s', ?_, hs'⟩
      simp only [runEvents, expectedReturns, hclosure, hcall, hrun]
      push_cast
      rfl

/-- C5: counters made by separate calls of `makeCounter()` are independent.  In
every sequence of `x := makeCounter()` statements and calls of the variables so
bound (each call on a variable bound earlier, fewer than 2^63 steps) every call
returns the number of calls made so far on its own counter, whatever was called
on the others.  The closures the `makeCounter()` calls returned are pairwise
distinct, a call on one of them leaves the captured `count` of every other one
unchanged, and `makeCounter()` always allocates a cell no earlier closure
captures, set to 0, leaving the existing cells as they are. -/
theorem counters_independent (evs : List Ev) (hwf : WellFormed 0 evs)
    (hlen : (evs.length : Int) < (2 : Int) ^ 63) :
    (∃ s', runEvents { closures := [], heap := [] } evs = some (expectedReturns [] evs, s') ∧
      s'.closures.Nodup ∧
      (∀ (i j c1 c2 : Nat) (r : Int) (h' : Heap), i ≠ j →
        s'.closures[i]? = some c1 → s'.closures[j]? = some c2 →
        callCounter c1 s'.heap = some (r, h') → h'[c2]? = s'.heap[c2]?)) ∧
    (∀ h : Heap, h[(makeCounter h).1]? = none ∧
      (makeCounter h).2[(makeCounter h).1]? = some 0 ∧
      (∀ (c : Nat) (v : Int), h[c]? = some v → (makeCounter h).2[c]? = some v)) := by
  refine ⟨?_, makeCounter_fresh⟩
  obtain ⟨s', hrun, hs'⟩ := runEvents_expected evs [] { closures := [], heap := [] } rfl
    (by intro c; simp [callsOf]) hwf (by simpa using hlen)
  refine ⟨s', hrun, ?_, ?_⟩
  · rw [hs']
    exact List.nodup_range _
  · intro i j c1 c2 r h' hij hi hj hcall
    have hne : c1 ≠ c2 := by
      rw [hs'] at hi hj
      have hi' : i < s'.heap.length := by
        rcases Nat.lt_or_ge i s'.heap.length with hl | hl
        · exact hl
        · rw [List.getElem?_eq_none (by simpa using hl)] at hi
          cases hi
      have hj' : j < s'.heap.length := by
        rcases Nat.lt_or_ge j s'.heap.length with hl | hl
        · exact hl
        · rw [List.getElem?_eq_none (by simpa using hl)] at hj
          cases hj
      rw [List.getElem?_range hi'] at hi
      rw [List.getElem?_range hj'] at hj
      cases hi
      cases hj
      exact hij
    exact callCounter_frame s'.heap c1 c2 r h' hne hcall

/-- Witness of C5: the steps of `main` (a counter called three times, then a
second counter called once) return 1, 2, 3 and then 1. -/
theorem counters_independent_witness :
    expectedReturns [] [Ev.make, Ev.call 0, Ev.call 0, Ev.call 0, Ev.make, Ev.call 1] =
      [1, 2, 3, 1] ∧
    closureSection =
      some ["Counter: 1\n", "Counter: 2\n", "Counter: 3\n", "Counter2: 1\n"] ∧
    ((∃ s', runEvents { closures := [], heap := [] }
          [Ev.make, Ev.call 0, Ev.call 0, Ev.call 0, Ev.make, Ev.call 1] =
        some (expectedReturns [] [Ev.make, Ev.call 0, Ev.call 0, Ev.call 0, Ev.make, Ev.call 1],
          s') ∧
        s'.closures.Nodup ∧
        (∀ (i j c1 c2 : Nat) (r : Int) (h' : Heap), i ≠ j →
          s'.closures[i]? = some c1 → s'.closures[j]? = some c2 →
          callCounter c1 s'.heap = some (r, h') → h'[c2]? = s'.heap[c2]?)) ∧
      (∀ h : Heap, h[(makeCounter h).1]? = none ∧
        (makeCounter h).2[(makeCounter h).1]? = some 0 ∧
        (∀ (c : Nat) (v : Int), h[c]? = some v → (makeCounter h).2[c]? = some v))) :=
  ⟨by decide, by decide,
    counters_independent [Ev.make, Ev.call 0, Ev.call 0, Ev.call 0, Ev.make, Ev.call 1]
      (by simp [WellFormed]) (by decide)⟩

end Functions

namespace GoModel

theorem GoMap.get_set {κ ν : Type} [DecidableEq κ] (m : GoMap κ ν) (k k' : κ) (v : ν) :
    GoMap.get (GoMap.set m k v) k' = if k = k' then some v else GoMap.get m k' := by
  induction m with
  | nil =>
    by_cases h : k = k' <;> simp [GoMap.set, GoMap.get, h]
  | cons p rest ih =>
    obtain ⟨k0, v0⟩ := p
    by_cases h0 : k0 = k
    · subst h0
      by_cases h : k0 = k' <;> simp [GoMap.set, GoMap.get, h]
    · by_cases h : k0 = k'
      · subst h
        have hne : ¬ k = k0 := fun e => h0 e.symm
        simp [GoMap.set, GoMap.get, h0, hne]
      · simp [GoMap.set, GoMap.get, h0, h, ih]

theorem GoMap.get_eq_none_iff {κ ν : Type} [DecidableEq κ] (m : GoMap κ ν) (k : κ) :
    GoMap.get m k = none ↔ k ∉ GoMap.keys m := by
  induction m with
  | nil => simp [GoMap.get, GoMap.keys]
  | cons p rest ih =>
    obtain ⟨k0, v0⟩ := p
    by_cases h : k0 = k
    · simp [GoMap.get, GoMap.keys, h]
    · have hne : ¬ k = k0 := fun e => h e.symm
      simp only [GoMap.get, h, if_false, ih]
      simp [GoMap.keys, hne]

theorem GoMap.keys_set {κ ν : Type} [DecidableEq κ] (m : GoMap κ ν) (k : κ) (v : ν) :
    GoMap.keys (GoMap.set m k v) =
      if k ∈ GoMap.keys m then GoMap.keys m else GoMap.keys m ++ [k] := by
  induction m with
  | nil => simp [GoMap.set, GoMap.keys]
  | cons p rest ih =>
    obtain ⟨k0, v0⟩ := p
    by_cases h : k0 = k
    · subst h
      simp [GoMap.set, GoMap.keys]
    · have hne : ¬ k = k0 := fun e => h e.symm
      have ih' := ih
      simp only [GoMap.keys] at ih'
      simp only [GoMap.set, h, if_false, GoMap.keys, List.map_cons, List.mem_cons, hne,
        false_or, ih']
      split <;> simp

theorem GoMap.sum_set {κ : Type} [DecidableEq κ] (m : GoMap κ Int) (k : κ) (v : Int) :
    ((GoMap.set m k v).map Prod.snd).sum = (m.map Prod.snd).sum - GoMap.getD m k 0 + v := by
  induction m with
  | nil => simp [GoMap.set, GoMap.getD, GoMap.get]
  | cons p rest ih =>
    obtain ⟨k0, v0⟩ := p
    by_cases h : k0 = k
    · simp [GoMap.set, GoMap.getD, GoMap.get, h]
      omega
    · have ih' := ih
      simp only [GoMap.getD] at ih'
      simp only [GoMap.set, GoMap.getD, GoMap.get, h, if_false, List.map_cons, List.sum_cons, ih']
      omega

end GoModel

namespace Collections
open GoModel

theorem foldl_incrWord_inv (ws : List String) (done : List String) (m : GoMap String Int)
    (hget : ∀ w, GoMap.get m w = if w ∈ done then some ((done.count w : Nat) : Int) else none)
    (hsum : (m.map Prod.snd).sum = ((done.length : Nat) : Int))
    (hnd : (GoMap.keys m).Nodup)
    (hlen : ((done.length + ws.length : Nat) : Int) < (2 : Int) ^ 63) :
    (∀ w, GoMap.get (ws.foldl incrWord m) w =
      if w ∈ done ++ ws then some (((done ++ ws).count w : Nat) : Int) else none) ∧
    ((ws.foldl incrWord m).map Prod.snd).sum = (((done ++ ws).length : Nat) : Int) ∧
    (GoMap.keys (ws.foldl incrWord m)).Nodup := by
  induction ws generalizing done m with
  | nil => simpa using ⟨hget, hsum, hnd⟩
  | cons x xs ih =>
    have hD : GoMap.getD m x 0 = ((done.count x : Nat) : Int) := by
      unfold GoMap.getD
      rw [hget x]
      by_cases hx : x ∈ done
      · simp [hx]
      · simp [hx, List.count_eq_zero_of_not_mem hx]
    have hcnt : done.count x ≤ done.length := List.count_le_length x done
    have hw : wrapInt64 (GoMap.getD m x 0 + 1) = ((done.count x : Nat) : Int) + 1 := by
      rw [hD]
      apply wrapInt64_of_range
      · omega
      · simp only [List.length_cons] at hlen
        push_cast at hlen
        omega
    have hstep : ∀ w, GoMap.get (incrWord m x) w =
        if w ∈ done ++ [x] then some (((done ++ [x]).count w : Nat) : Int) else none := by
      intro w
      unfold incrWord
      rw [GoMap.get_set, hw]
      by_cases hxw : x = w
      · subst hxw
        simp
      · have hwx : ¬ w = x := fun e => hxw e.symm
        rw [if_neg hxw, hget w]
        simp [List.count_append, List.count_cons, hxw, hwx]
    have hsum' : ((incrWord m x).map Prod.snd).sum = (((done ++ [x]).length : Nat) : Int) := by
      unfold incrWord
      rw [GoMap.sum_set, hw, hD, hsum]
      simp only [List.length_append, List.length_singleton]
      push_cast
      omega
    have hnd' : (GoMap.keys (incrWord m x)).Nodup := by
      unfold incrWord
      rw [GoMap.keys_set]
      split
      · exact hnd
      · rename_i hx
        exact List.Nodup.append hnd (List.nodup_singleton x) (by simpa using hx)
    have := ih (done ++ [x]) (incrWord m x) hstep hsum' hnd'
      (by simp only [List.length_append, List.length_cons, List.length_nil] at hlen ⊢
          push_cast at hlen ⊢
          omega)
    simpa [List.append_assoc] using this

/-- C8: for every list of words (shorter than 2^63), after the loop
`frequency[word]++` run from an empty map, each word of the list is a key whose
value is the number of positions at which it occurs, no word absent from the
list is a key, the keys are pairwise distinct and the values sum to the length
of the list. -/
theorem word_frequency_counts (ws : List String) (hlen : (ws.length : Int) < (2 : Int) ^ 63) :
    (∀ w ∈ ws, GoMap.get (countWords ws) w = some ((ws.count w : Nat) : Int) ∧
      w ∈ GoMap.keys (countWords ws)) ∧
    (∀ w, w ∉ ws → GoMap.get (countWords ws) w = none ∧ w ∉ GoMap.keys (countWords ws)) ∧
    ((countWords ws).map Prod.snd).sum = ((ws.length : Nat) : Int) ∧
    (GoMap.keys (countWords ws)).Nodup := by
  have h := foldl_incrWord_inv ws [] [] (by intro w; simp [GoMap.get]) (by simp)
    (by simp [GoMap.keys]) (by simpa using hlen)
  simp only [List.nil_append] at h
  obtain ⟨hget, hsum, hnd⟩ := h
  refine ⟨?_, ?_, hsum, hnd⟩
  · intro w hw
    have hg : GoMap.get (countWords ws) w = some ((ws.count w : Nat) : Int) := by
      have := hget w
      rw [if_pos hw] at this
      exact this
    refine ⟨hg, ?_⟩
    by_contra hk
    rw [← GoMap.get_eq_none_iff] at hk
    rw [hk] at hg
    cases hg
  · intro w hw
    have hg : GoMap.get (countWords ws) w = none := by
      have := hget w
      rw [if_neg hw] at this
      exact this
    exact ⟨hg, (GoMap.get_eq_none_iff _ _).mp hg⟩

/-- Witness of C8: the list of line 201 gives apple 3, banana 2, cherry 1. -/
theorem word_frequency_counts_witness :
    countWords words = [("apple", 3), ("banana", 2), ("cherry", 1)] ∧
    ((∀ w ∈ words, GoMap.get (countWords words) w = some ((words.count w : Nat) : Int) ∧
        w ∈ GoMap.keys (countWords words)) ∧
      (∀ w, w ∉ words → GoMap.get (countWords words) w = none ∧
        w ∉ GoMap.keys (countWords words)) ∧
      ((countWords words).map Prod.snd).sum = ((words.length : Nat) : Int) ∧
      (GoMap.keys (countWords words)).Nodup) :=
  ⟨by decide, word_frequency_counts words (by decide)⟩

end Collections

namespace GoModel

theorem rangeMap_append_lines {κ ν : Type} [DecidableEq κ] (m : GoMap κ ν) (line : κ → ν → String)
    (order : List κ) (init : List String) :
    rangeMap m order (fun k v out => out ++ [line k v]) init =
      init ++ order.filterMap (fun k => (GoMap.get m k).map (line k)) := by
  unfold rangeMap
  induction order generalizing init with
  | nil => simp
  | cons k rest ih =>
    rw [List.foldl_cons, ih]
    cases hk : GoMap.get m k with
    | none => simp [List.filterMap_cons, hk]
    | some v => simp [List.filterMap_cons, hk]

theorem rangeMap_set_get {κ ν μ : Type} [DecidableEq κ] (m : GoMap κ ν) (f : ν → μ)
    (order : List κ) (init : GoMap κ μ) (k : κ) :
    GoMap.get (rangeMap m order (fun key value t => GoMap.set t key (f value)) init) k =
      if k ∈ order ∧ (GoMap.get m k).isSome = true then (GoMap.get m k).map f
      else GoMap.get init k := by
  unfold rangeMap
  induction order generalizing init with
  | nil => simp
  | cons k0 rest ih =>
    rw [List.foldl_cons, ih]
    by_cases hk : k0 = k
    · subst hk
      cases hm : GoMap.get m k0 with
      | none => simp
      | some v => simp [GoMap.get_set]
    · have hne : ¬ k = k0 := fun e => hk e.symm
      cases hm : GoMap.get m k0 with
      | none => simp [hne]
      | some v => simp [GoMap.get_set, hk, hne]

theorem iterOrder_perm {κ ν : Type} {m : GoMap κ ν} {o1 o2 : List κ}
    (h1 : IterOrder m o1) (h2 : IterOrder m o2) : o1.Perm o2 :=
  List.Perm.trans h1 (List.Perm.symm h2)

end GoModel

namespace ControlFlow
open GoModel

theorem main_eq :
    ∃ before after, ∀ order, main order = some (before ++ rangePerson order ++ after) := by
  obtain ⟨s2, h2⟩ := Option.isSome_iff_exists.mp (show forLoopsSection.isSome = true by decide)
  obtain ⟨s4, h4⟩ := Option.isSome_iff_exists.mp
    (show breakContinueSection.isSome = true by decide)
  obtain ⟨s5, h5⟩ := Option.isSome_iff_exists.mp (show gotoSection.isSome = true by decide)
  obtain ⟨e, he⟩ := Option.isSome_iff_exists.mp (show deferSection.isSome = true by decide)
  refine ⟨["=== Control Flow in Go ===\n\n"] ++ ifElseSection ++ switchSection ++ s2,
    s4 ++ s5 ++ e.runDeferred, fun order => ?_⟩
  simp only [main, h2, h4, h5, he, Option.bind_eq_bind, Option.some_bind, List.append_assoc]

end ControlFlow

namespace GoModel

theorem lexLe_total (x y : List Nat) : lexLe x y = true ∨ lexLe y x = true := by
  induction x generalizing y with
  | nil => exact Or.inl (by simp [lexLe])
  | cons a as ih =>
    cases y with
    | nil => exact Or.inr (by simp [lexLe])
    | cons b bs =>
      rcases Nat.lt_trichotomy a b with h | h | h
      · exact Or.inl (by simp [lexLe, h])
      · subst h
        simpa [lexLe] using ih bs
      · exact Or.inr (by simp [lexLe, h])

theorem lexLe_trans (x y z : List Nat) (hxy : lexLe x y = true) (hyz : lexLe y z = true) :
    lexLe x z = true := by
  induction x generalizing y z with
  | nil => simp [lexLe]
  | cons a as ih =>
    cases y with
    | nil => simp [lexLe] at hxy
    | cons b bs =>
      cases z with
      | nil => simp [lexLe] at hyz
      | cons c cs =>
        simp only [lexLe] at hxy hyz ⊢
        by_cases hab : a < b
        · by_cases hbc : b < c
          · simp [show a < c by omega]
          · by_cases hcb : c < b
            · simp [hbc, hcb] at hyz
            · have hbc' : b = c := by omega
              subst hbc'
              simp [hab]
        · by_cases hba : b < a
          · simp [hab, hba] at hxy
          · have hab' : a = b := by omega
            subst hab'
            simp only [hab, if_false] at hxy
            by_cases hac : a < c
            · simp [hac]
            · by_cases hca : c < a
              · simp [hac, hca] at hyz
              · simp only [hac, hca, if_false] at hyz ⊢
                exact ih bs cs hxy hyz

theorem lexLe_antisymm (x y : List Nat) (hxy : lexLe x y = true) (hyx : lexLe y x = true) :
    x = y := by
  induction x generalizing y with
  | nil =>
    cases y with
    | nil => rfl
    | cons b bs => simp [lexLe] at hyx
  | cons a as ih =>
    cases y with
    | nil => simp [lexLe] at hxy
    | cons b bs =>
      simp only [lexLe] at hxy hyx
      by_cases hab : a < b
      · have hba : ¬ b < a := by omega
        simp [hab, hba] at hyx
      · by_cases hba : b < a
        · simp [hab, hba] at hxy
        · have hab' : a = b := by omega
          subst hab'
          simp only [hab, if_false] at hxy hyx
          rw [ih bs hxy hyx]

theorem codes_injective (a b : String) (h : codes a = codes b) : a = b := by
  have hinj : Function.Injective Char.toNat := by
    intro c d hcd
    have := congrArg Char.ofNat hcd
    simpa [Char.ofNat_toNat] using this
  exact String.ext (List.map_injective_iff.mpr hinj h)

theorem sortKeys_eq_of_perm (ks1 ks2 : List String) (hp : ks1.Perm ks2) :
    sortKeys ks1 = sortKeys ks2 := by
  haveI : IsTotal String (fun a b => keyLe a b = true) :=
    ⟨fun a b => lexLe_total (codes a) (codes b)⟩
  haveI : IsTrans String (fun a b => keyLe a b = true) :=
    ⟨fun a b c hab hbc => lexLe_trans (codes a) (codes b) (codes c) hab hbc⟩
  haveI : IsAntisymm String (fun a b => keyLe a b = true) :=
    ⟨fun a b hab hba => codes_injective a b (lexLe_antisymm (codes a) (codes b) hab hba)⟩
  unfold sortKeys
  exact List.eq_of_perm_of_sorted
    ((List.perm_insertionSort _ ks1).trans (hp.trans (List.perm_insertionSort _ ks2).symm))
    (List.sorted_insertionSort _ ks1) (List.sorted_insertionSort _ ks2)

theorem rangeMap_set_keys_nodup {ν μ : Type} (m : GoMap String ν) (f : ν → μ)
    (order : List String) (init : GoMap String μ) (hinit : (GoMap.keys init).Nodup) :
    (GoMap.keys (rangeMap m order (fun key value t => GoMap.set t key (f value)) init)).Nodup := by
  unfold rangeMap
  induction order generalizing init with
  | nil => simpa using hinit
  | cons k rest ih =>
    rw [List.foldl_cons]
    apply ih
    cases GoMap.get m k with
    | none => exact hinit
    | some v =>
      simp only
      rw [GoMap.keys_set]
      split
      · exact hinit
      · rename_i hk
        exact List.Nodup.append hinit (List.nodup_singleton k) (by simpa using hk)

theorem fmtVMap_congr {ν : Type} (fmtVal : ν → String) (m1 m2 : GoMap String ν)
    (hn1 : (GoMap.keys m1).Nodup) (hn2 : (GoMap.keys m2).Nodup)
    (hget : ∀ k, GoMap.get m1 k = GoMap.get m2 k) :
    fmtVMap fmtVal m1 = fmtVMap fmtVal m2 := by
  have hperm : (GoMap.keys m1).Perm (GoMap.keys m2) := by
    rw [List.perm_ext_iff_of_nodup hn1 hn2]
    intro k
    have h1 := GoMap.get_eq_none_iff m1 k
    have h2 := GoMap.get_eq_none_iff m2 k
    rw [hget k] at h1
    exact not_iff_not.mp (h1.symm.trans h2)
  unfold fmtVMap
  rw [sortKeys_eq_of_perm _ _ hperm]
  simp only [hget]

end GoModel

namespace Collections
open GoModel

theorem transformed_get_eq (a1 a2 : List String) (ha1 : IterOrder ages a1)
    (ha2 : IterOrder ages a2) (k : String) :
    GoMap.get (transformed a1) k = GoMap.get (transformed a2) k := by
  unfold transformed
  rw [rangeMap_set_get, rangeMap_set_get]
  have hmem : k ∈ a1 ↔ k ∈ a2 := List.Perm.mem_iff (iterOrder_perm ha1 ha2)
  simp only [hmem]

theorem agesDoubledLine_eq (a1 a2 : List String) (ha1 : IterOrder ages a1)
    (ha2 : IterOrder ages a2) : agesDoubledLine a1 = agesDoubledLine a2 := by
  unfold agesDoubledLine
  rw [fmtVMap_congr fmtD (transformed a1) (transformed a2)
    (rangeMap_set_keys_nodup _ _ _ _ (by simp [GoMap.keys]))
    (rangeMap_set_keys_nodup _ _ _ _ (by simp [GoMap.keys]))
    (transformed_get_eq a1 a2 ha1 ha2)]

end Collections

namespace Examples
open GoModel

set_option maxRecDepth 100000 in
/-- C1 as stated fails: with the iteration order of a map `range` free to be any
permutation of the keys, the bytes written by the `range capitals` loop, by the
`range frequency` loop and by the whole control-flow program differ between two
runs. -/
theorem output_depends_on_map_order :
    (¬ ∀ o1 o2, IterOrder Collections.capitals o1 → IterOrder Collections.capitals o2 →
      render (Collections.rangeCapitals o1) = render (Collections.rangeCapitals o2)) ∧
    (¬ ∀ o1 o2, IterOrder (Collections.countWords Collections.words) o1 →
      IterOrder (Collections.countWords Collections.words) o2 →
      render (Collections.rangeFrequency o1) = render (Collections.rangeFrequency o2)) ∧
    (¬ ∀ o1 o2, IterOrder ControlFlow.person o1 → IterOrder ControlFlow.person o2 →
      (ControlFlow.main o1).map render = (ControlFlow.main o2).map render) := by
  refine ⟨fun h => ?_, fun h => ?_, fun h => ?_⟩
  · have := h ["USA", "France", "Germany", "Japan"] ["Japan", "Germany", "France", "USA"]
      (by decide) (by decide)
    revert this
    decide
  · have := h ["apple", "banana", "cherry"] ["cherry", "apple", "banana"]
      (by decide) (by decide)
    revert this
    decide
  · have := h ["name", "city", "role"] ["role", "name", "city"] (by decide) (by decide)
    revert this
    decide

/-- C1 (amended): two runs of an example program write the same chunks, up to
the order of the lines written inside a `range` over a map.  For any two runs
(each choosing a permutation of the keys in every map loop): every one of the
five programs produces output in both runs and the two outputs are permutations
of one another; the functions, variables-types and demo programs write identical
output; the output of the collections program is a fixed text around the blocks
of its `range capitals` and `range frequency` loops (the `%v` map prints and the
map built by `range ages` do not depend on the run), and the output of the
control-flow program is a fixed text around the block of its `range person`
loop; runs that take the same orders in these printing loops write identical
output. -/
theorem map_range_output_perm (r1 r2 : Run) (h1 : Run.Valid r1) (h2 : Run.Valid r2) :
    (∀ p, ∃ out1 out2, output p r1 = some out1 ∧ output p r2 = some out2 ∧ out1.Perm out2) ∧
    (∃ out, output Program.functions r1 = some out ∧ output Program.functions r2 = some out) ∧
    (∃ out, output Program.variablesTypes r1 = some out ∧
      output Program.variablesTypes r2 = some out) ∧
    (∃ out, output Program.demo r1 = some out ∧ output Program.demo r2 = some out) ∧
    (∃ before after,
      output Program.collections r1 = some (before ++ Collections.rangeCapitals r1.capitals ++
        Collections.rangeFrequency r1.frequency ++ after) ∧
      output Program.collections r2 = some (before ++ Collections.rangeCapitals r2.capitals ++
        Collections.rangeFrequency r2.frequency ++ after) ∧
      (Collections.rangeCapitals r1.capitals).Perm (Collections.rangeCapitals r2.capitals) ∧
      (Collections.rangeFrequency r1.frequency).Perm
        (Collections.rangeFrequency r2.frequency)) ∧
    (∃ before after,
      output Program.controlFlow r1 = some (before ++ ControlFlow.rangePerson r1.person ++
        after) ∧
      output Program.controlFlow r2 = some (before ++ ControlFlow.rangePerson r2.person ++
        after) ∧
      (ControlFlow.rangePerson r1.person).Perm (ControlFlow.rangePerson r2.person)) ∧
    (r1.capitals = r2.capitals → r1.frequency = r2.frequency →
      output Program.collections r1 = output Program.collections r2) ∧
    (r1.person = r2.person → output Program.controlFlow r1 = output Program.controlFlow r2) ∧
    (∀ k, GoMap.get (Collections.transformed r1.ages) k =
      GoMap.get (Collections.transformed r2.ages) k) ∧
    Collections.agesDoubledLine r1.ages = Collections.agesDoubledLine r2.ages := by
  obtain ⟨hc1, hf1, ha1, hp1⟩ := h1
  obtain ⟨hc2, hf2, ha2, hp2⟩ := h2
  have hages := Collections.agesDoubledLine_eq r1.ages r2.ages ha1 ha2
  have hcap : (Collections.rangeCapitals r1.capitals).Perm
      (Collections.rangeCapitals r2.capitals) := by
    unfold Collections.rangeCapitals
    rw [rangeMap_append_lines, rangeMap_append_lines]
    exact List.Perm.append_left _
      (List.Perm.append_left _ (List.Perm.filterMap _ (iterOrder_perm hc1 hc2)))
  have hfreq : (Collections.rangeFrequency r1.frequency).Perm
      (Collections.rangeFrequency r2.frequency) := by
    unfold Collections.rangeFrequency
    rw [rangeMap_append_lines, rangeMap_append_lines]
    exact List.Perm.append_left _
      (List.Perm.append_left _ (List.Perm.filterMap _ (iterOrder_perm hf1 hf2)))
  have hper : (ControlFlow.rangePerson r1.person).Perm (ControlFlow.rangePerson r2.person) := by
    unfold ControlFlow.rangePerson
    rw [rangeMap_append_lines, rangeMap_append_lines]
    exact List.Perm.append_left _ (List.Perm.filterMap _ (iterOrder_perm hp1 hp2))
  obtain ⟨cfBefore, cfAfter, hcf⟩ := ControlFlow.main_eq
  obtain ⟨fo, hfo⟩ := Option.isSome_iff_exists.mp (show Functions.main.isSome = true by decide)
  obtain ⟨vo, hvo⟩ := Option.isSome_iff_exists.mp
    (show VariablesTypes.main.isSome = true by decide)
  obtain ⟨dm, hdm⟩ := Option.isSome_iff_exists.mp (show Demo.main.isSome = true by decide)
  have hcoll : ∀ r : Run, output Program.collections r =
      some ((["=== Arrays, Slices, and Maps ===\n\n"] ++ Collections.arraysSection ++
        Collections.makeSection ++ Collections.sliceOperations.1 ++
        Collections.sliceInternals ++ Collections.matrixSection ++ Collections.mapsSection ++
        Collections.fruitsSection) ++ Collections.rangeCapitals r.capitals ++
        Collections.rangeFrequency r.frequency ++
        (Collections.filterSection ++ [Collections.agesDoubledLine r.ages] ++
          ["\n✅ Arrays, Slices, and Maps completed!\n"])) := by
    intro r
    simp only [output, Collections.main, List.append_assoc]
  have hcoll2 := hcoll r2
  rw [← hages] at hcoll2
  refine ⟨?_, ⟨fo, hfo, hfo⟩, ⟨vo, hvo, hvo⟩, ⟨dm.1, ?_, ?_⟩,
    ⟨_, _, hcoll r1, hcoll2, hcap, hfreq⟩, ⟨cfBefore, cfAfter, hcf _, hcf _, hper⟩, ?_, ?_,
    fun k => Collections.transformed_get_eq r1.ages r2.ages ha1 ha2 k, hages⟩
  · intro p
    cases p with
    | collections =>
      exact ⟨_, _, hcoll r1, hcoll2,
        List.Perm.append_right _ (List.Perm.append (List.Perm.append_left _ hcap) hfreq)⟩
    | controlFlow =>
      exact ⟨_, _, hcf _, hcf _, List.Perm.append_right _ (List.Perm.append_left _ hper)⟩
    | functions => exact ⟨fo, fo, hfo, hfo, List.Perm.refl _⟩
    | variablesTypes => exact ⟨vo, vo, hvo, hvo, List.Perm.refl _⟩
    | demo =>
      exact ⟨dm.1, dm.1, by simp only [output, hdm, Option.map_some'],
        by simp only [output, hdm, Option.map_some'], List.Perm.refl _⟩
  · simp only [output, hdm, Option.map_some']
  · simp only [output, hdm, Option.map_some']
  · intro hc hf
    rw [hcoll r1, hcoll2, hc, hf]
  · intro hp
    simp only [output, hp]

/-- Witness of C1 (amended): two runs that take different orders in every loop. -/
theorem map_range_output_perm_witness :
    Run.Valid (Run.mk ["USA", "France", "Germany", "Japan"] ["apple", "banana", "cherry"]
      ["Alice", "Bob", "Charlie"] ["name", "city", "role"]) ∧
    Run.Valid (Run.mk ["Japan", "Germany", "France", "USA"] ["cherry", "apple", "banana"]
      ["Charlie", "Bob", "Alice"] ["role", "name", "city"]) ∧
    (∀ p, ∃ out1 out2,
      output p (Run.mk ["USA", "France", "Germany", "Japan"] ["apple", "banana", "cherry"]
        ["Alice", "Bob", "Charlie"] ["name", "city", "role"]) = some out1 ∧
      output p (Run.mk ["Japan", "Germany", "France", "USA"] ["cherry", "apple", "banana"]
        ["Charlie", "Bob", "Alice"] ["role", "name", "city"]) = some out2 ∧
      out1.Perm out2) :=
  ⟨by decide, by decide,
    (map_range_output_perm
      (Run.mk ["USA", "France", "Germany", "Japan"] ["apple", "banana", "cherry"]
        ["Alice", "Bob", "Charlie"] ["name", "city", "role"])
      (Run.mk ["Japan", "Germany", "France", "USA"] ["cherry", "apple", "banana"]
        ["Charlie", "Bob", "Alice"] ["role", "name", "city"])
      (by decide) (by decide)).1⟩

end Examples

namespace GoModel

theorem wrapInt64_inRange (x : Int) :
    -(2 : Int) ^ 63 ≤ wrapInt64 x ∧ wrapInt64 x < (2 : Int) ^ 63 := by
  unfold wrapInt64
  omega

theorem wrapInt64_eq_add_mul (x : Int) : ∃ k : Int, wrapInt64 x = x + 2 ^ 64 * k := by
  refine ⟨-((x + 2 ^ 63) / 2 ^ 64), ?_⟩
  unfold wrapInt64
  omega

end GoModel

namespace Functions
open GoModel

theorem neg_tmod_eq (a b : Int) : (-a).tmod b = -(a.tmod b) := by
  rw [Int.tmod_def, Int.tmod_def, Int.neg_tdiv]
  ring

theorem tmod_bounds_of_nonneg (a b : Int) (ha : 0 ≤ a) (hb : b ≠ 0) :
    0 ≤ a.tmod b ∧ a.tmod b < |b| := by
  refine ⟨Int.tmod_nonneg b ha, ?_⟩
  rcases lt_or_gt_of_ne hb with hneg | hpos
  · have h := Int.tmod_lt_of_pos a (show 0 < -b by omega)
    rw [Int.tmod_neg] at h
    rw [abs_of_neg hneg]
    exact h
  · rw [abs_of_pos hpos]
    exact Int.tmod_lt_of_pos a hpos

theorem tmod_bounds_of_nonpos (a b : Int) (ha : a ≤ 0) (hb : b ≠ 0) :
    a.tmod b ≤ 0 ∧ -|b| < a.tmod b := by
  have h := tmod_bounds_of_nonneg (-a) b (by omega) hb
  rw [neg_tmod_eq] at h
  constructor <;> omega

/-- C11: for `int` values `a` and `b` with `b ≠ 0`, `divideWithRemainder(a, b)`
returns a quotient and a remainder with `quotient * b + remainder = a` in
wrapping 64 bit arithmetic (also for `a = -2^63`, `b = -1`), `|remainder| < |b|`,
and the remainder is 0 or has the sign of `a`; with `b = 0` the function does not
return (there is no zero guard). -/
theorem divideWithRemainder_spec (a b : Int) (ha : InInt64 a) (hb : InInt64 b) (hb0 : b ≠ 0) :
    (∃ q r, divideWithRemainder a b = some (q, r) ∧ InInt64 q ∧ InInt64 r ∧
      wrapInt64 (wrapInt64 (q * b) + r) = a ∧ |r| < |b| ∧
      (r = 0 ∨ (0 < r ∧ 0 < a) ∨ (r < 0 ∧ a < 0))) ∧
    divideWithRemainder a 0 = none ∧
    divideWithRemainder (-(2 : Int) ^ 63) (-1) = some (-(2 : Int) ^ 63, 0) := by
  refine ⟨?_, by simp [divideWithRemainder], by decide⟩
  have hmod : |a.tmod b| < |b| ∧
      (a.tmod b = 0 ∨ (0 < a.tmod b ∧ 0 < a) ∨ (a.tmod b < 0 ∧ a < 0)) := by
    rcases le_total 0 a with h | h
    · have hbd := tmod_bounds_of_nonneg a b h hb0
      refine ⟨by rw [abs_of_nonneg hbd.1]; exact hbd.2, ?_⟩
      rcases eq_or_lt_of_le h with h0 | hpos
      · left
        rw [← h0]
        exact Int.zero_tmod b
      · rcases eq_or_lt_of_le hbd.1 with hr | hr
        · exact Or.inl hr.symm
        · exact Or.inr (Or.inl ⟨hr, hpos⟩)
    · have hbd := tmod_bounds_of_nonpos a b h hb0
      refine ⟨by rw [abs_of_nonpos hbd.1]; omega, ?_⟩
      rcases eq_or_lt_of_le h with h0 | hneg
      · left
        rw [h0]
        exact Int.zero_tmod b
      · rcases eq_or_lt_of_le hbd.1 with hr | hr
        · exact Or.inl hr
        · exact Or.inr (Or.inr ⟨hr, hneg⟩)
  have hbabs : |b| ≤ (2 : Int) ^ 63 := by
    rcases abs_cases b with ⟨he, _⟩ | ⟨he, _⟩ <;> rw [he] <;> have := hb.1 <;> have := hb.2 <;>
      omega
  have hrange : InInt64 (a.tmod b) := by
    have h1 := hmod.1
    rcases abs_cases (a.tmod b) with ⟨he, _⟩ | ⟨he, _⟩ <;> rw [he] at h1 <;>
      constructor <;> omega
  have hwr : wrapInt64 (a.tmod b) = a.tmod b := wrapInt64_of_range _ hrange.1 hrange.2
  refine ⟨wrapInt64 (a.tdiv b), a.tmod b, ?_, wrapInt64_inRange _, hrange, ?_, hmod.1, hmod.2⟩
  · simp [divideWithRemainder, hb0, hwr]
  · obtain ⟨k1, hk1⟩ := wrapInt64_eq_add_mul (a.tdiv b)
    obtain ⟨k2, hk2⟩ := wrapInt64_eq_add_mul (wrapInt64 (a.tdiv b) * b)
    obtain ⟨k3, hk3⟩ := wrapInt64_eq_add_mul (wrapInt64 (wrapInt64 (a.tdiv b) * b) + a.tmod b)
    have hdiv : a.tdiv b * b + a.tmod b = a := Int.tdiv_add_tmod' a b
    have hprod : wrapInt64 (a.tdiv b) * b = a.tdiv b * b + 2 ^ 64 * (k1 * b) := by
      rw [hk1]
      ring
    have hfin := wrapInt64_inRange (wrapInt64 (wrapInt64 (a.tdiv b) * b) + a.tmod b)
    have ha1 := ha.1
    have ha2 := ha.2
    generalize wrapInt64 (wrapInt64 (wrapInt64 (a.tdiv b) * b) + a.tmod b) = w3 at hk3 hfin ⊢
    generalize wrapInt64 (wrapInt64 (a.tdiv b) * b) = w2 at hk2 hk3
    generalize wrapInt64 (a.tdiv b) * b = w1 at hprod hk2
    generalize k1 * b = kb at hprod
    generalize a.tdiv b * b = qb at hprod hdiv
    omega

/-- Witness of C11: `divideWithRemainder(17, 5)` gives quotient 3, remainder 2. -/
theorem divideWithRemainder_spec_witness :
    divideWithRemainder 17 5 = some (3, 2) ∧
    remainderSection = some ["17 / 5 = 3 remainder 2\n"] ∧
    ((∃ q r, divideWithRemainder 17 5 = some (q, r) ∧ InInt64 q ∧ InInt64 r ∧
        wrapInt64 (wrapInt64 (q * 5) + r) = 17 ∧ |r| < |(5 : Int)| ∧
        (r = 0 ∨ (0 < r ∧ (0 : Int) < 17) ∨ (r < 0 ∧ (17 : Int) < 0))) ∧
      divideWithRemainder 17 0 = none ∧
      divideWithRemainder (-(2 : Int) ^ 63) (-1) = some (-(2 : Int) ^ 63, 0)) :=
  ⟨by decide, by decide,
    divideWithRemainder_spec 17 5 (by unfold InInt64; decide) (by unfold InInt64; decide)
      (by decide)⟩

end Functions

namespace Functions
open GoModel

theorem factorial_le_max (n : Nat) (hn : n ≤ 20) : Nat.factorial n ≤ 2432902008176640000 := by
  have h20 : Nat.factorial 20 = 2432902008176640000 := by decide
  rw [← h20]
  exact Nat.factorial_le hn

theorem factorial_eq (n : Nat) (hn : n ≤ 20) :
    ∀ fuel, n < fuel → factorial fuel (n : Int) = some ((Nat.factorial n : Nat) : Int) := by
  induction n with
  | zero =>
    intro fuel hfuel
    obtain ⟨f, rfl⟩ : ∃ f, fuel = f + 1 := ⟨fuel - 1, by omega⟩
    simp [factorial]
  | succ n ih =>
    intro fuel hfuel
    obtain ⟨f, rfl⟩ : ∃ f, fuel = f + 1 := ⟨fuel - 1, by omega⟩
    rcases Nat.eq_zero_or_pos n with h0 | hpos
    · subst h0
      simp [factorial]
    · have hnot : ¬ (((n + 1 : Nat) : Int) ≤ 1) := by
        push_cast
        omega
      have hpred : wrapInt64 (((n + 1 : Nat) : Int) - 1) = (n : Int) := by
        rw [wrapInt64_of_range] <;> push_cast <;> omega
      have hmax := factorial_le_max (n + 1) hn
      have hmul : ((n + 1 : Nat) : Int) * ((Nat.factorial n : Nat) : Int) =
          ((Nat.factorial (n + 1) : Nat) : Int) := by
        rw [Nat.factorial_succ]
        push_cast
        ring
      have hwrap : wrapInt64 (((n + 1 : Nat) : Int) * ((Nat.factorial n : Nat) : Int)) =
          ((Nat.factorial (n + 1) : Nat) : Int) := by
        rw [hmul]
        apply wrapInt64_of_range <;> omega
      rw [factorial, if_neg hnot, hpred, ih (by omega) f (by omega)]
      simp only [hwrap]

/-- C12: for `0 ≤ n ≤ 20` (and fuel above `n`) `factorial(n)` returns exactly
`n!`; every product `k * factorial(k-1)` formed on the way (`2 ≤ k ≤ n`) is the
exact `k!` and lies in the `int` range, so nothing wraps. -/
theorem factorial_exact (n : Nat) (hn : n ≤ 20) (fuel : Nat) (hfuel : n < fuel) :
    factorial fuel (n : Int) = some ((Nat.factorial n : Nat) : Int) ∧
    (∀ k : Nat, 2 ≤ k → k ≤ n →
      ∃ f, factorial (fuel - (n - k) - 1) ((k : Int) - 1) = some f ∧
        InInt64 ((k : Int) * f) ∧ (k : Int) * f = ((Nat.factorial k : Nat) : Int)) := by
  refine ⟨factorial_eq n hn fuel hfuel, ?_⟩
  intro k hk2 hkn
  have hcast : (k : Int) - 1 = ((k - 1 : Nat) : Int) := by omega
  have hrec := factorial_eq (k - 1) (by omega) (fuel - (n - k) - 1) (by omega)
  have hmul : (k : Int) * ((Nat.factorial (k - 1) : Nat) : Int) =
      ((Nat.factorial k : Nat) : Int) := by
    rw [← Nat.mul_factorial_pred (show 0 < k by omega)]
    push_cast
    rfl
  have hmax := factorial_le_max k (by omega)
  refine ⟨_, by rw [hcast]; exact hrec, ?_, hmul⟩
  rw [hmul]
  constructor <;> omega

/-- Witness of C12: `factorial(5)` is 120. -/
theorem factorial_exact_witness :
    factorial 6 5 = some 120 ∧
    (factorial 6 ((5 : Nat) : Int) = some ((Nat.factorial 5 : Nat) : Int) ∧
      (∀ k : Nat, 2 ≤ k → k ≤ 5 →
        ∃ f, factorial (6 - (5 - k) - 1) ((k : Int) - 1) = some f ∧
          InInt64 ((k : Int) * f) ∧ (k : Int) * f = ((Nat.factorial k : Nat) : Int))) :=
  ⟨by decide, factorial_exact 5 (by decide) 6 (by decide)⟩

theorem fibSpec_eq_fib (n : Nat) : fibSpec n = Nat.fib n := by
  induction n using Nat.twoStepInduction with
  | zero => rfl
  | one => rfl
  | more n ih0 ih1 =>
    rw [fibSpec, Nat.fib_add_two, ih0, ih1, Nat.add_comm]

theorem fibSpec_le_max (n : Nat) (hn : n ≤ 92) : fibSpec n ≤ 7540113804746346429 := by
  have h92 : Nat.fib 92 = 7540113804746346429 := by norm_num
  rw [fibSpec_eq_fib, ← h92]
  exact Nat.fib_mono hn

theorem fibonacci_eq (n : Nat) :
    n ≤ 92 → ∀ fuel, n < fuel → fibonacci fuel (n : Int) = some ((fibSpec n : Nat) : Int) := by
  induction n using Nat.twoStepInduction with
  | zero =>
    intro _ fuel hfuel
    obtain ⟨f, rfl⟩ : ∃ f, fuel = f + 1 := ⟨fuel - 1, by omega⟩
    simp [fibonacci, fibSpec]
  | one =>
    intro _ fuel hfuel
    obtain ⟨f, rfl⟩ : ∃ f, fuel = f + 1 := ⟨fuel - 1, by omega⟩
    simp [fibonacci, fibSpec]
  | more n ih0 ih1 =>
    intro hn fuel hfuel
    obtain ⟨f, rfl⟩ : ∃ f, fuel = f + 1 := ⟨fuel - 1, by omega⟩
    have hnot : ¬ (((n + 2 : Nat) : Int) ≤ 1) := by
      push_cast
      omega
    have hp1 : wrapInt64 (((n + 2 : Nat) : Int) - 1) = ((n + 1 : Nat) : Int) := by
      rw [wrapInt64_of_range] <;> push_cast <;> omega
    have hp2 : wrapInt64 (((n + 2 : Nat) : Int) - 2) = (n : Int) := by
      rw [wrapInt64_of_range] <;> push_cast <;> omega
    have hmax := fibSpec_le_max (n + 2) hn
    have hsum : ((fibSpec (n + 1) : Nat) : Int) + ((fibSpec n : Nat) : Int) =
        ((fibSpec (n + 2) : Nat) : Int) := by
      rw [fibSpec]
      push_cast
      rfl
    have hwrap : wrapInt64 (((fibSpec (n + 1) : Nat) : Int) + ((fibSpec n : Nat) : Int)) =
        ((fibSpec (n + 2) : Nat) : Int) := by
      rw [hsum]
      apply wrapInt64_of_range <;> omega
    rw [fibonacci, if_neg hnot, hp1, hp2, ih1 (by omega) f (by omega),
      ih0 (by omega) f (by omega)]
    simp only [hwrap]

/-- C13: for `0 ≤ n ≤ 92` (and fuel above `n`) `fibonacci(n)` returns the `n`-th
Fibonacci number F(n), with F(0) = 0, F(1) = 1, F(k+2) = F(k+1) + F(k); F(92)
fits the `int` range and F(93) does not. -/
theorem fibonacci_eq_spec (n : Nat) (hn : n ≤ 92) (fuel : Nat) (hfuel : n < fuel) :
    fibonacci fuel (n : Int) = some ((fibSpec n : Nat) : Int) ∧
    InInt64 ((fibSpec n : Nat) : Int) ∧
    ¬ InInt64 ((fibSpec 93 : Nat) : Int) := by
  have hmax := fibSpec_le_max n hn
  have h93 : fibSpec 93 = 12200160415121876738 := by
    rw [fibSpec_eq_fib]
    norm_num
  refine ⟨fibonacci_eq n hn fuel hfuel, by constructor <;> omega, ?_⟩
  rw [h93]
  intro h
  have := h.2
  omega

/-- Witness of C13: `fibonacci(8)` is 21. -/
theorem fibonacci_eq_spec_witness :
    fibonacci 9 8 = some 21 ∧ fibSpec 8 = 21 ∧
    recursionSection = some ["Factorial of 5: 120\n", "Fibonacci of 8: 21\n"] ∧
    (fibonacci 9 ((8 : Nat) : Int) = some ((fibSpec 8 : Nat) : Int) ∧
      InInt64 ((fibSpec 8 : Nat) : Int) ∧ ¬ InInt64 ((fibSpec 93 : Nat) : Int)) :=
  ⟨by decide, by decide, by decide, fibonacci_eq_spec 8 (by decide) 9 (by decide)⟩

end Functions

namespace ControlFlow
open GoModel

/-- C14: the deferred calls of `main` run in LIFO order after its last regular
statement.  For every order the `range person` loop takes, the output of the
program ends with the "Control Flow completed!" line followed by "  Deferred 3",
"  Deferred 2", "  Deferred 1" and, as the very last line, "This prints last
(deferred)"; when line 258 has run these four calls are the pending stack of
`main`, and `demonstrateDefer` has run its own two deferred calls, last deferred
first, at its return. -/
theorem deferred_calls_run_last (personOrder : List String) :
    (∃ front, main personOrder = some (front ++
      ["\nâœ… Control Flow completed!\n", "  Deferred 3\n", "  Deferred 2\n",
        "  Deferred 1\n", "This prints last (deferred)\n"])) ∧
    (∃ written, deferSection = some (Env.mk (written ++ ["\nâœ… Control Flow completed!\n"])
      ["  Deferred 3\n", "  Deferred 2\n", "  Deferred 1\n",
        "This prints last (deferred)\n"])) ∧
    demonstrateDefer = ["\nPractical defer example:\n", "  1. Opening resources\n",
      "  2. Processing data\n", "  3. Closing connections\n", "  4. Cleanup completed\n"] := by
  obtain ⟨s2, h2⟩ := Option.isSome_iff_exists.mp (show forLoopsSection.isSome = true by decide)
  obtain ⟨s4, h4⟩ := Option.isSome_iff_exists.mp
    (show breakContinueSection.isSome = true by decide)
  obtain ⟨s5, h5⟩ := Option.isSome_iff_exists.mp (show gotoSection.isSome = true by decide)
  have he : deferSection = some (Env.mk
      (["\n--- Defer Statement ---\n", "This prints first\n", "This prints second\n",
        "\nMultiple defers (LIFO):\n", "  Regular statement\n"] ++ demonstrateDefer ++
        ["\nâœ… Control Flow completed!\n"])
      ["  Deferred 3\n", "  Deferred 2\n", "  Deferred 1\n",
        "This prints last (deferred)\n"]) := by
    decide
  refine ⟨⟨["=== Control Flow in Go ===\n\n"] ++ ifElseSection ++ switchSection ++ s2 ++
      rangePerson personOrder ++ s4 ++ s5 ++
      (["\n--- Defer Statement ---\n", "This prints first\n", "This prints second\n",
        "\nMultiple defers (LIFO):\n", "  Regular statement\n"] ++ demonstrateDefer), ?_⟩,
    ⟨_, he⟩, by decide⟩
  simp only [main, h2, h4, h5, he, Env.runDeferred, Option.bind_eq_bind, Option.some_bind,
    List.append_assoc, List.singleton_append]

end ControlFlow
